import Mathlib

/-!
# Verification of the Live Competitive Session Engine (`src/app.py`)

Shallow embedding of the debate / quiz engine of the repository:

* Python `dict`s keyed by strings are modelled as association lists
  (`List (String × α)`) with first-match lookup (`alookup`) and
  replace-or-append assignment (`aset`), matching `dict` semantics.
* Machine floats that only ever hold small exact values (vote tallies,
  `1.0` markers, ratios of small integers) are modelled as `ℚ`.
* Each request handler is embedded as a pure function from the relevant
  part of the in-memory document to the mutated part plus a result; the
  functions return the post-call in-memory state also on error paths so
  that atomicity claims can be stated.
-/

set_option linter.unusedVariables false
set_option synthInstance.maxSize 512

namespace QaLeadership

/-- First-match lookup in an association list (Python `dict.get`). -/
def alookup {α : Type} (m : List (String × α)) (k : String) : Option α :=
  match m with
  | [] => none
  | (k0, v0) :: rest => if k0 = k then some v0 else alookup rest k

/-- Replace-or-append assignment (Python `dict[k] = v`): if the key is
present its value is replaced in place, otherwise the pair is appended,
matching `dict` insertion-order semantics. -/
def aset {α : Type} (m : List (String × α)) (k : String) (v : α) : List (String × α) :=
  match m with
  | [] => [(k, v)]
  | (k0, v0) :: rest => if k0 = k then (k0, v) :: rest else (k0, v0) :: aset rest k v

theorem alookup_aset_self {α : Type} (m : List (String × α)) (k : String) (v : α) :
    alookup (aset m k v) k = some v := by
  induction m with
  | nil => simp [aset, alookup]
  | cons p rest ih =>
    obtain ⟨k0, v0⟩ := p
    by_cases h : k0 = k
    · simp [aset, alookup, h]
    · simp [aset, alookup, h, ih]

theorem alookup_aset_ne {α : Type} (m : List (String × α)) (k k' : String) (v : α)
    (h : k' ≠ k) : alookup (aset m k v) k' = alookup m k' := by
  have hk : ¬ k = k' := fun hh => h hh.symm
  induction m with
  | nil => simp [aset, alookup, hk]
  | cons p rest ih =>
    obtain ⟨k0, v0⟩ := p
    by_cases h0 : k0 = k
    · subst h0
      have hk0 : ¬ k0 = k' := hk
      simp [aset, alookup, hk0]
    · by_cases h1 : k0 = k'
      · subst h1
        simp [aset, alookup, h0]
      · simp [aset, alookup, h0, h1, ih]

theorem mem_aset {α : Type} (m : List (String × α)) (k : String) (v : α) :
    ∀ p ∈ aset m k v, p = (k, v) ∨ p ∈ m := by
  induction m with
  | nil =>
    intro p hp
    simp only [aset, List.mem_singleton] at hp
    exact Or.inl hp
  | cons q rest ih =>
    obtain ⟨k0, v0⟩ := q
    intro p hp
    by_cases h : k0 = k
    · subst h
      rw [show aset ((k0, v0) :: rest) k0 v = (k0, v) :: rest from by simp [aset]] at hp
      rcases List.mem_cons.mp hp with hp1 | hp1
      · exact Or.inl hp1
      · exact Or.inr (List.mem_cons_of_mem _ hp1)
    · rw [show aset ((k0, v0) :: rest) k v = (k0, v0) :: aset rest k v from by
        simp [aset, h]] at hp
      rcases List.mem_cons.mp hp with hp1 | hp1
      · exact Or.inr (by simp [hp1])
      · rcases ih p hp1 with h1 | h1
        · exact Or.inl h1
        · exact Or.inr (List.mem_cons_of_mem _ h1)

instance {ε α : Type} [DecidableEq ε] [DecidableEq α] : DecidableEq (Except ε α)
  | .ok a, .ok b => if h : a = b then isTrue (by rw [h]) else isFalse (by simp [h])
  | .ok _, .error _ => isFalse (by simp)
  | .error _, .ok _ => isFalse (by simp)
  | .error e, .error f => if h : e = f then isTrue (by rw [h]) else isFalse (by simp [h])

/-! ## Public voting (`public_vote_page`, `src/app.py` lines 1129–1186)

In the source the per-step map `scores.public[step]` is one dict holding
per-team integer tallies together with a reserved `"_voters"` entry
(voter email → chosen team id).  The embedding separates the two kinds of
entries into the fields of `PubStep`; `tallies` are the non-`"_voters"`
entries. -/

structure PubStep where
  tallies : List (String × Int)
  voters : List (String × String)
deriving Repr, DecidableEq

def PubStep.empty : PubStep := ⟨[], []⟩

/-- The accepted-vote mutation of `public_vote_page` (lines 1170–1176):

```
prev = voters.get(email)
if prev:
    if prev != team_id:
        step_map[prev] = max(0, int(step_map.get(prev, 1)) - 1)
voters[email] = team_id
step_map[team_id] = int(step_map.get(team_id, 0)) + 1
```

Note the final increment is unconditional: it runs even when
`prev == team_id`. -/
def decTallies (sm : PubStep) (email team_id : String) : List (String × Int) :=
  match alookup sm.voters email with
  | some p =>
      -- Python truthiness: the decrement branch requires a non-empty prev
      if p ≠ "" ∧ p ≠ team_id then
        aset sm.tallies p (max 0 ((alookup sm.tallies p).getD 1 - 1))
      else sm.tallies
  | none => sm.tallies

def applyPublicVote (sm : PubStep) (email team_id : String) : PubStep :=
  { tallies := aset (decTallies sm email team_id) team_id
      ((alookup (decTallies sm email team_id) team_id).getD 0 + 1),
    voters := aset sm.voters email team_id }

/-- Sum of the stored per-team tallies of a step (the `"_voters"` entry is
not a tally and is excluded by construction of `PubStep`). -/
def sumTallies (sm : PubStep) : Int :=
  (sm.tallies.map (·.2)).sum

/-- Number of distinct voter emails recorded in the `"_voters"` map. -/
def distinctVoters (sm : PubStep) : Nat :=
  ((sm.voters.map (·.1)).dedup).length

/-- Current tally of one team (missing key reads as 0, as in the source). -/
def tallyOf (sm : PubStep) (team_id : String) : Int :=
  (alookup sm.tallies team_id).getD 0

/-- All stored tallies are non-negative. -/
def TalliesNonneg (sm : PubStep) : Prop :=
  ∀ p ∈ sm.tallies, (0 : Int) ≤ p.2

instance (sm : PubStep) : Decidable (TalliesNonneg sm) := by
  unfold TalliesNonneg; infer_instance

/-! ### The eligibility guards of `public_vote_page` (lines 1150–1186)

The full POST handler: the debate-level context decides whether a vote is
accepted; only accepted votes reach `applyPublicVote`. -/

structure Team where
  id : String
  name : String
  members : List String
deriving Repr, DecidableEq

inductive VoteOutcome where
  | accepted
  | rejected (message : String)
deriving Repr, DecidableEq

/-- The guard chain of the POST branch (lines 1151–1164): empty fields,
invitation, judge and team-member checks, in source order. -/
def publicVoteGuard (judges : List String) (teams : List Team)
    (invited : List String) (email team_id : String) : VoteOutcome :=
  if email = "" ∨ team_id = "" then .rejected "Please fill in email + team choice."
  else if email ∉ invited then .rejected "Email is not invited to this meeting."
  else if email ∈ judges then .rejected "Jury members cannot vote as public."
  else if teams.any (fun t => email ∈ t.members) then .rejected "Team members cannot vote as public."
  else .accepted

/-- One POST to the public-vote endpoint: a rejected submission leaves the
step map unchanged, an accepted one applies the tally mutation. -/
def publicVotePost (judges : List String) (teams : List Team) (invited : List String)
    (sm : PubStep) (email team_id : String) : VoteOutcome × PubStep :=
  match publicVoteGuard judges teams invited email team_id with
  | .accepted => (.accepted, applyPublicVote sm email team_id)
  | .rejected m => (.rejected m, sm)

/-- Fold a sequence of POST submissions (accepted or rejected) over a step. -/
def runPublicVotes (judges : List String) (teams : List Team) (invited : List String)
    (sm : PubStep) (votes : List (String × String)) : PubStep :=
  votes.foldl (fun s v => (publicVotePost judges teams invited s v.1 v.2).2) sm

theorem alookup_some_mem {α : Type} (m : List (String × α)) (k : String) (v : α)
    (h : alookup m k = some v) : (k, v) ∈ m := by
  induction m with
  | nil => simp [alookup] at h
  | cons p rest ih =>
    obtain ⟨k0, v0⟩ := p
    by_cases h0 : k0 = k
    · subst h0
      simp only [alookup, eq_self_iff_true, if_true, Option.some.injEq] at h
      rw [← h]
      exact List.mem_cons_self _ _
    · simp only [alookup, if_neg h0] at h
      exact List.mem_cons_of_mem _ (ih h)

theorem aset_nonneg {m : List (String × Int)} (h : ∀ p ∈ m, (0 : Int) ≤ p.2)
    {k : String} {v : Int} (hv : 0 ≤ v) : ∀ p ∈ aset m k v, (0 : Int) ≤ p.2 := by
  intro p hp
  rcases mem_aset m k v p hp with h1 | h1
  · subst h1; exact hv
  · exact h p h1

theorem getD_nonneg {m : List (String × Int)} (h : ∀ p ∈ m, (0 : Int) ≤ p.2)
    (k : String) : (0 : Int) ≤ (alookup m k).getD 0 := by
  rcases hm : alookup m k with _ | v
  · simp
  · simpa using h (k, v) (alookup_some_mem m k v hm)

theorem decTallies_nonneg (sm : PubStep) (email team_id : String)
    (h : TalliesNonneg sm) : ∀ p ∈ decTallies sm email team_id, (0 : Int) ≤ p.2 := by
  unfold decTallies
  rcases alookup sm.voters email with _ | p
  · exact h
  · by_cases hc : p ≠ "" ∧ p ≠ team_id
    · simp only [if_pos hc]
      exact aset_nonneg h (le_max_left 0 _)
    · simp only [if_neg hc]
      exact h

theorem alookup_decTallies_team (sm : PubStep) (email team_id : String) :
    alookup (decTallies sm email team_id) team_id = alookup sm.tallies team_id := by
  unfold decTallies
  rcases alookup sm.voters email with _ | p
  · rfl
  · by_cases hc : p ≠ "" ∧ p ≠ team_id
    · simp only [if_pos hc]
      exact alookup_aset_ne _ _ _ _ (fun hh => hc.2 hh.symm)
    · simp only [if_neg hc]

theorem applyPublicVote_spec (sm : PubStep) (email team_id : String)
    (h : TalliesNonneg sm) :
    TalliesNonneg (applyPublicVote sm email team_id) ∧
    tallyOf (applyPublicVote sm email team_id) team_id = tallyOf sm team_id + 1 := by
  have h1 := decTallies_nonneg sm email team_id h
  constructor
  · intro p hp
    refine aset_nonneg h1 ?_ p hp
    have := getD_nonneg h1 team_id
    omega
  · show (alookup (aset (decTallies sm email team_id) team_id _) team_id).getD 0 = _
    rw [alookup_aset_self, alookup_decTallies_team]
    rfl

theorem runPublicVotes_nonneg (judges : List String) (teams : List Team)
    (invited : List String) (votes : List (String × String)) (sm : PubStep)
    (h : TalliesNonneg sm) :
    TalliesNonneg (runPublicVotes judges teams invited sm votes) := by
  induction votes generalizing sm with
  | nil => exact h
  | cons v rest ih =>
    show TalliesNonneg (runPublicVotes judges teams invited
      (publicVotePost judges teams invited sm v.1 v.2).2 rest)
    apply ih
    unfold publicVotePost
    rcases publicVoteGuard judges teams invited v.1 v.2 with _ | m
    · exact (applyPublicVote_spec sm v.1 v.2 h).1
    · exact h

/-- C10: every per-team tally stored in a public-vote step map stays a
non-negative integer under any sequence of submissions; an accepted vote
increments the chosen team tally by exactly 1, and the decrement of a
switching voter's previous team is floored at 0 so no tally goes negative. -/
theorem C10_public_tallies_nonneg :
    (∀ (sm : PubStep) (email team_id : String), TalliesNonneg sm →
        TalliesNonneg (applyPublicVote sm email team_id) ∧
        tallyOf (applyPublicVote sm email team_id) team_id = tallyOf sm team_id + 1) ∧
    (∀ (judges : List String) (teams : List Team) (invited : List String)
        (votes : List (String × String)) (sm : PubStep), TalliesNonneg sm →
        TalliesNonneg (runPublicVotes judges teams invited sm votes)) :=
  ⟨applyPublicVote_spec, runPublicVotes_nonneg⟩

/-- Witness for C10 at a concrete input. -/
theorem C10_public_tallies_nonneg_witness :
    TalliesNonneg PubStep.empty ∧
    (TalliesNonneg (applyPublicVote PubStep.empty "alice@x.com" "t1") ∧
     tallyOf (applyPublicVote PubStep.empty "alice@x.com" "t1")
       "t1" = tallyOf PubStep.empty "t1" + 1) :=
  ⟨by decide, C10_public_tallies_nonneg.1 PubStep.empty "alice@x.com" "t1" (by decide)⟩

/-! ### C1: the sum of tallies vs the number of distinct voters

The source increments the chosen team tally unconditionally, even when the
`_voters` map already records the same voter with the same team, so a
repeated identical vote inflates the tally sum past the voter count. -/

def demoTeams : List Team :=
  [⟨"t1", "Team 1", ["m1@x.com"]⟩, ⟨"t2", "Team 2", ["m2@x.com"]⟩]

def demoInvited : List String := ["alice@x.com", "m1@x.com", "m2@x.com"]

/-- C1: refuted on the code.  An invited, eligible voter submits the same
team twice; both submissions are accepted and the stored tally sum becomes
2 while only one distinct voter is recorded, so the sum does not equal the
number of distinct voters and the repeat vote did increase the sum. -/
theorem C1_same_team_revote_inflates_sum :
    (publicVotePost [] demoTeams demoInvited PubStep.empty "alice@x.com" "t1").1
        = .accepted ∧
    (publicVotePost [] demoTeams demoInvited
        (publicVotePost [] demoTeams demoInvited PubStep.empty "alice@x.com" "t1").2
        "alice@x.com" "t1").1 = .accepted ∧
    sumTallies (publicVotePost [] demoTeams demoInvited
        (publicVotePost [] demoTeams demoInvited PubStep.empty "alice@x.com" "t1").2
        "alice@x.com" "t1").2 = 2 ∧
    distinctVoters (publicVotePost [] demoTeams demoInvited
        (publicVotePost [] demoTeams demoInvited PubStep.empty "alice@x.com" "t1").2
        "alice@x.com" "t1").2 = 1 := by
  decide

/-! ## Quiz engine (`quiz_control`, `quiz_submit`, `_grade_quiz_ratio`,
`src/app.py` lines 3161–3361)

Statuses and phases are strings in the source with the enumerations
documented at session creation (lines 3052–3053); they are embedded as
inductive types. -/

inductive QStatus where
  | waiting | running | reveal | finished
deriving Repr, DecidableEq

inductive QPhase where
  | waiting | question | leaderboard
deriving Repr, DecidableEq

/-- A JSON answer payload as received by `quiz_submit`. -/
inductive Ans where
  | nullv
  | str (s : String)
  | list (l : List String)
  | pairs (m : List (Int × String))
deriving Repr, DecidableEq

inductive QKind where
  | single | multiple | order | pairing
deriving Repr, DecidableEq

/-- One quiz-bank question (external, read-only).  The per-kind answer-key
fields mirror the dict keys `correct` / `order` / `map`; a key missing from
the dict is the empty value of its field (`points` 0 stands for a missing
or zero `points`, both of which the source maps to 1 via `or 1`). -/
structure Question where
  kind : QKind
  correct : String
  correctSet : List String
  order : List String
  pairs : List (Int × String)
  points : ℚ
  time_sec : Option Int
  penalty_points : Option ℚ
deriving Repr, DecidableEq

structure Quiz where
  questions : List Question
  time_per_question : Option Int
deriving Repr, DecidableEq

structure Player where
  nickname : String
  score : ℚ
deriving Repr, DecidableEq

structure AnswerRec where
  answer : Ans
  ts : Int
  correct : Bool
  points : ℚ
deriving Repr, DecidableEq

structure QuizSession where
  status : QStatus
  phase : QPhase
  current_index : Int
  reveal : Bool
  q_started_at : Option Int
  players : List (String × Player)
  answers : List (String × List (String × AnswerRec))
deriving Repr, DecidableEq

/-- A freshly created session (`quiz_sessions` POST, lines 3048–3059). -/
def QuizSession.fresh : QuizSession :=
  { status := .waiting, phase := .waiting, current_index := -1, reveal := false,
    q_started_at := none, players := [], answers := [] }

/-- `list(map(str, payload or []))`: Python iteration of the payload.  A
string iterates as its characters, a JSON object as its keys. -/
def pyIterStrs : Ans → List String
  | .nullv => []
  | .str s => s.toList.map (fun c => String.singleton c)
  | .list l => l
  | .pairs m => m.map (fun p => toString p.1)

def pyQuote (s : String) : String :=
  String.singleton (Char.ofNat 39) ++ s ++ String.singleton (Char.ofNat 39)

/-- `str(payload)` of a JSON payload: strings render as themselves, the
other shapes render as their Python repr. -/
def pyStr : Ans → String
  | .nullv => "None"
  | .str s => s
  | .list l => "[" ++ String.intercalate ", " (l.map pyQuote) ++ "]"
  | .pairs m =>
      "\x7b" ++ String.intercalate ", "
        (m.map (fun p => toString p.1 ++ ": " ++ pyQuote p.2)) ++ "\x7d"

def ilookup (m : List (Int × String)) (k : Int) : Option String :=
  match m with
  | [] => none
  | (k0, v0) :: rest => if k0 = k then some v0 else ilookup rest k

/-- Count of leading positions where the submission matches the key;
stops at the first mismatch (and at the shorter length), like the
`for i in range(max_len): ... else: break` loop of the source. -/
def prefixMatchLen : List String → List String → ℕ
  | c :: cs, s :: ss => if s = c then 1 + prefixMatchLen cs ss else 0
  | _, _ => 0

/-- `_grade_quiz_ratio` (lines 3324–3361). -/
def gradeQuizRatio (q : Question) (a : Ans) : ℚ :=
  match q.kind with
  | .single => if pyStr a = q.correct then 1 else 0
  | .multiple =>
      if (pyIterStrs a).toFinset = q.correctSet.toFinset then 1 else 0
  | .order =>
      let correct_order := q.order
      let sub := pyIterStrs a
      if correct_order = [] ∨ sub = [] then 0
      else (prefixMatchLen correct_order sub : ℚ) / (correct_order.length : ℚ)
  | .pairing =>
      -- `sub = answer_payload or {}` followed by an isinstance(dict) check:
      -- None falls back to the empty dict, non-dict shapes grade 0
      match a with
      | .pairs sub => gradePairs q.pairs sub
      | .nullv => gradePairs q.pairs []
      | _ => 0
where
  gradePairs (corr sub : List (Int × String)) : ℚ :=
    let keys := (corr.map Prod.fst ++ sub.map Prod.fst).dedup
    if keys = [] then 0
    else
      let correct_pairs := (keys.filter (fun k =>
        (ilookup sub k).getD "None" = (ilookup corr k).getD "None")).length
      (correct_pairs : ℚ) / (keys.length : ℚ)

/-- `quiz_control` (lines 3161–3216): the four admin actions over one
session; `total_q` is the question count of the bound quiz. -/
def quizControl (total_q : ℕ) (now_ms : Int) (sess : QuizSession) (action : String) :
    Except String QuizSession :=
  if action = "start" then
    .ok { sess with status := .running,
                    current_index := if total_q > 0 then 0 else -1,
                    reveal := false, phase := .question, q_started_at := some now_ms }
  else if action = "next" then
    if sess.phase = .question then
      .ok { sess with phase := .leaderboard, reveal := true, status := .reveal }
    else
      let ci := sess.current_index + 1
      if ci < (total_q : Int) then
        .ok { sess with current_index := ci, reveal := false, status := .running,
                        phase := .question, q_started_at := some now_ms,
                        answers := aset sess.answers (toString ci) [] }
      else
        .ok { sess with status := .finished, phase := .leaderboard }
  else if action = "reveal" then
    .ok { sess with reveal := true, status := .reveal, phase := .leaderboard }
  else if action = "end" then
    .ok { sess with status := .finished }
  else
    .error "Unknown action"

/-- `int(question.get("time_sec") or quiz.get("time_per_question", 30))`:
a falsy (missing or zero) per-question time falls back to the quiz-level
default, which itself defaults to 30 only when the key is absent. -/
def timePerQ (quiz : Quiz) (q : Question) : Int :=
  match q.time_sec with
  | some t => if t ≠ 0 then t else quiz.time_per_question.getD 30
  | none => quiz.time_per_question.getD 30

/-- `round(x, 3)` of the source, on exact rationals.  (Python rounds the
nearest binary double half-to-even; on the exact values of this
development the two agree.) -/
def round3 (x : ℚ) : ℚ := ((round (x * 1000) : ℤ) : ℚ) / 1000

/-- The scoring tail of `quiz_submit` (lines 3284–3319): grading,
time-weighting, penalty, rounding, answer-record insert and score update.
Runs only after every guard has passed. -/
def quizSubmitCore (qz : Quiz) (now_ms : Int) (sess : QuizSession)
    (pid : String) (payload : Ans) (penalize_wrong : Bool) (question : Question) :
    Except String ℚ × QuizSession :=
  let ci := sess.current_index
  let ans_map := (alookup sess.answers (toString ci)).getD []
  let sess1 := { sess with answers :=
    (if (alookup sess.answers (toString ci)).isSome then sess.answers
     else aset sess.answers (toString ci) []) }
  let correctness_ratio := gradeQuizRatio question payload
  let time_per_q := timePerQ qz question
  let time_ratio : ℚ :=
    match sess.q_started_at with
    | some t =>
      if t ≠ 0 ∧ time_per_q > 0 then
        let elapsed := max 0 (now_ms - t)
        let remaining := max 0 (time_per_q * 1000 - elapsed)
        (remaining : ℚ) / ((time_per_q * 1000 : Int) : ℚ)
      else 1
    | none => 1
  let points_max : ℚ := if question.points ≠ 0 then question.points else 1
  let points_earned := points_max * correctness_ratio * time_ratio
  let penalty : ℚ :=
    if penalize_wrong ∧ correctness_ratio = 0 then
      -(match question.penalty_points with
        | some p => if p ≠ 0 then p else (1 : ℚ) / 2
        | none => (1 : ℚ) / 2)
    else 0
  let total_delta :=
    if ¬ penalize_wrong then max 0 (points_earned + penalty)
    else points_earned + penalty
  let pts := round3 total_delta
  let recEntry : AnswerRec :=
    { answer := payload, ts := now_ms,
      correct := correctness_ratio = 1, points := pts }
  let player := (alookup sess.players pid).getD ⟨"", 0⟩
  let player1 := { player with score := round3 (player.score + pts) }
  (.ok pts,
   { sess1 with answers := aset sess1.answers (toString ci) (aset ans_map pid recEntry),
                players := aset sess.players pid player1 })

/-- `quiz_submit` (lines 3260–3322).  Returns the HTTP-level outcome
(`.ok` carries the awarded points) together with the post-call in-memory
session, so that the error paths' effect on the session is part of the
model. -/
def quizSubmit (quiz : Option Quiz) (now_ms : Int) (sess : QuizSession)
    (pid : String) (payload : Ans) (penalize_wrong : Bool) :
    Except String ℚ × QuizSession :=
  if (alookup sess.players pid).isNone then (.error "Player not in session", sess)
  else if sess.current_index < 0 then (.error "No active question", sess)
  else
    match quiz with
    | none => (.error "Question not found", sess)
    | some qz =>
      match qz.questions[sess.current_index.toNat]? with
      | none =>
          -- IndexError raised by `questions[ci]`, caught by the outer
          -- handler: an error return that never reaches the answer map
          (.error "list index out of range", sess)
      | some question =>
        -- sess.setdefault("answers", {}).setdefault(str(ci), {})
        let ans_map := (alookup sess.answers (toString sess.current_index)).getD []
        let sess1 := { sess with answers :=
          (if (alookup sess.answers (toString sess.current_index)).isSome then sess.answers
           else aset sess.answers (toString sess.current_index) []) }
        if (alookup ans_map pid).isSome then (.error "Already answered", sess1)
        else quizSubmitCore qz now_ms sess pid payload penalize_wrong question

/-! ### C5: the `start` action on an empty quiz -/

/-- C5: refuted on the code.  `start` on a session whose bound quiz has no
questions does not fail with an EmptyQuiz error: it succeeds and mutates
the session (status running, phase question, timestamp set), merely
leaving `current_index = -1`. -/
theorem C5_start_empty_quiz_no_error :
    quizControl 0 1700 QuizSession.fresh "start"
      = .ok { QuizSession.fresh with
                status := .running, current_index := -1,
                reveal := false, phase := .question, q_started_at := some 1700 } ∧
    ({ QuizSession.fresh with
         status := .running, current_index := -1,
         reveal := false, phase := .question,
         q_started_at := some (1700 : Int) } : QuizSession) ≠ QuizSession.fresh := by
  constructor
  · rfl
  · decide

/-- C5 amended: `start` always succeeds.  With at least one question it
sets `current_index = 0`, `phase = question`, `status = running` and
records `q_started_at = now`; with an empty quiz it performs the same
state change except `current_index = -1` (there is no EmptyQuiz error). -/
theorem C5_start_amended (total_q : ℕ) (now_ms : Int) (sess : QuizSession) :
    (0 < total_q →
      quizControl total_q now_ms sess "start"
        = .ok { sess with
                  status := .running, current_index := 0, reveal := false,
                  phase := .question, q_started_at := some now_ms }) ∧
    (total_q = 0 →
      quizControl total_q now_ms sess "start"
        = .ok { sess with
                  status := .running, current_index := -1, reveal := false,
                  phase := .question, q_started_at := some now_ms }) := by
  constructor
  · intro h
    simp [quizControl, h]
  · intro h
    subst h
    simp [quizControl]

/-- Witness for C5 amended at concrete inputs. -/
theorem C5_start_amended_witness :
    quizControl 1 5 QuizSession.fresh "start"
      = .ok { QuizSession.fresh with
                status := .running, current_index := 0,
                reveal := false, phase := .question, q_started_at := some 5 } ∧
    quizControl 0 5 QuizSession.fresh "start"
      = .ok { QuizSession.fresh with
                status := .running, current_index := -1,
                reveal := false, phase := .question, q_started_at := some 5 } :=
  ⟨(C5_start_amended 1 5 QuizSession.fresh).1 (by decide),
   (C5_start_amended 0 5 QuizSession.fresh).2 rfl⟩

/-! ### C8: grading of `order` questions -/

theorem prefixMatchLen_nil_right (c : List String) : prefixMatchLen c [] = 0 := by
  cases c <;> rfl

theorem gradeQuizRatio_order (q : Question) (a : Ans) (hk : q.kind = .order)
    (ho : q.order ≠ []) :
    gradeQuizRatio q a
      = (prefixMatchLen q.order (pyIterStrs a) : ℚ) / (q.order.length : ℚ) := by
  obtain ⟨k, c, cs, ord, prs, pts, ts, pp⟩ := q
  simp only at hk ho
  subst hk
  by_cases hs : pyIterStrs a = []
  · simp [gradeQuizRatio, hs, prefixMatchLen_nil_right]
  · simp [gradeQuizRatio, hs, ho]

/-- C8: grading an `order` question returns the count of leading positions
matching the key before the first mismatch, divided by the key length; on
key `[A,B,C]` and submission `[A,X,C]` the ratio is 1/3 even though the
third position matches the key (correct-but-unreachable positions do not
count). -/
theorem C8_order_grading :
    (∀ (q : Question) (a : Ans), q.kind = .order → q.order ≠ [] →
        gradeQuizRatio q a
          = (prefixMatchLen q.order (pyIterStrs a) : ℚ) / (q.order.length : ℚ)) ∧
    (∀ q : Question, q.kind = .order → q.order = ["A", "B", "C"] →
        gradeQuizRatio q (.list ["A", "X", "C"]) = 1 / 3 ∧
        (pyIterStrs (.list ["A", "X", "C"])).get? 2 = q.order.get? 2) := by
  refine ⟨gradeQuizRatio_order, fun q hk ho => ?_⟩
  rw [gradeQuizRatio_order q _ hk (by rw [ho]; decide), ho]
  refine ⟨?_, by decide⟩
  rw [show prefixMatchLen ["A", "B", "C"] (pyIterStrs (.list ["A", "X", "C"])) = 1 from by
    decide]
  norm_num

def demoOrderQ : Question :=
  { kind := .order, correct := "", correctSet := [], order := ["A", "B", "C"],
    pairs := [], points := 0, time_sec := none, penalty_points := none }

/-- Witness for C8 at the concrete question of the spec. -/
theorem C8_order_grading_witness :
    gradeQuizRatio demoOrderQ (.list ["A", "X", "C"]) = 1 / 3 ∧
    (pyIterStrs (.list ["A", "X", "C"])).get? 2 = demoOrderQ.order.get? 2 :=
  C8_order_grading.2 demoOrderQ rfl rfl

/-! ### C7: duplicate answer submissions -/

theorem quizSubmit_already (qz : Quiz) (now_ms : Int) (sess : QuizSession)
    (pid : String) (payload : Ans) (pen : Bool)
    (hp : (alookup sess.players pid).isSome = true)
    (hci : 0 ≤ sess.current_index)
    (hq : (qz.questions[sess.current_index.toNat]?).isSome = true)
    (ha : (alookup ((alookup sess.answers (toString sess.current_index)).getD [])
            pid).isSome = true) :
    quizSubmit (some qz) now_ms sess pid payload pen
      = (.error "Already answered", sess) := by
  have hkey : (alookup sess.answers (toString sess.current_index)).isSome = true := by
    rcases hk : alookup sess.answers (toString sess.current_index) with _ | am
    · rw [hk] at ha
      simp [alookup] at ha
    · rfl
  rcases hp' : alookup sess.players pid with _ | pl
  · rw [hp'] at hp
    simp at hp
  rcases hq' : qz.questions[sess.current_index.toNat]? with _ | question
  · rw [hq'] at hq
    simp at hq
  have hnl : ¬ sess.current_index < 0 := not_lt.mpr hci
  simp [quizSubmit, hp', hq', hnl, ha, hkey]

/-- The post-state of the accepted path: the answer record is inserted
for the current index and the player's score entry replaced. -/
theorem quizSubmitCore_state (qz : Quiz) (now_ms : Int) (sess : QuizSession)
    (pid : String) (payload : Ans) (pen : Bool) (question : Question) :
    ∃ (recE : AnswerRec) (pl : Player),
      (quizSubmitCore qz now_ms sess pid payload pen question).2
        = { sess with
              answers := aset
                (if (alookup sess.answers (toString sess.current_index)).isSome = true
                 then sess.answers
                 else aset sess.answers (toString sess.current_index) [])
                (toString sess.current_index)
                (aset ((alookup sess.answers (toString sess.current_index)).getD [])
                  pid recE),
              players := aset sess.players pid pl } :=
  ⟨_, _, rfl⟩

theorem quizSubmit_ok_inv (quiz : Option Quiz) (now_ms : Int) (sess : QuizSession)
    (pid : String) (payload : Ans) (pen : Bool) (r : ℚ) (s1 : QuizSession)
    (h : quizSubmit quiz now_ms sess pid payload pen = (.ok r, s1)) :
    ∃ qz question, quiz = some qz ∧ ¬ sess.current_index < 0 ∧
      qz.questions[sess.current_index.toNat]? = some question ∧
      quizSubmitCore qz now_ms sess pid payload pen question = (.ok r, s1) := by
  by_cases hp : (alookup sess.players pid).isNone = true
  · rw [show quizSubmit quiz now_ms sess pid payload pen
        = (.error "Player not in session", sess) from by simp [quizSubmit, hp]] at h
    exact absurd h (by simp)
  by_cases hci : sess.current_index < 0
  · rw [show quizSubmit quiz now_ms sess pid payload pen
        = (.error "No active question", sess) from by simp [quizSubmit, hp, hci]] at h
    exact absurd h (by simp)
  rcases quiz with _ | qz
  · rw [show quizSubmit none now_ms sess pid payload pen
        = (.error "Question not found", sess) from by simp [quizSubmit, hp, hci]] at h
    exact absurd h (by simp)
  rcases hq : qz.questions[sess.current_index.toNat]? with _ | question
  · rw [show quizSubmit (some qz) now_ms sess pid payload pen
        = (.error "list index out of range", sess) from by
          simp [quizSubmit, hp, hci, hq]] at h
    exact absurd h (by simp)
  by_cases ha : (alookup ((alookup sess.answers (toString sess.current_index)).getD [])
      pid).isSome = true
  · rw [show quizSubmit (some qz) now_ms sess pid payload pen
        = (.error "Already answered", { sess with answers :=
            (if (alookup sess.answers (toString sess.current_index)).isSome = true
             then sess.answers
             else aset sess.answers (toString sess.current_index) []) }) from by
          simp [quizSubmit, hp, hci, hq, ha]] at h
    exact absurd h (by simp)
  · rw [show quizSubmit (some qz) now_ms sess pid payload pen
        = quizSubmitCore qz now_ms sess pid payload pen question from by
          simp [quizSubmit, hp, hci, hq, ha]] at h
    exact ⟨qz, question, rfl, hci, hq, h⟩

/-- C7: once a player has an accepted answer for the current question
index, a second submission by the same player returns the duplicate-
submission error and leaves the session (answer record and cumulative
score) exactly as it was after the first submission. -/
theorem C7_second_submit_conflict (quiz : Option Quiz) (now1 now2 : Int)
    (sess sess1 : QuizSession) (pid : String) (a1 a2 : Ans) (pen1 pen2 : Bool) (r : ℚ)
    (h : quizSubmit quiz now1 sess pid a1 pen1 = (.ok r, sess1)) :
    quizSubmit quiz now2 sess1 pid a2 pen2 = (.error "Already answered", sess1) := by
  obtain ⟨qz, question, hqz, hci, hq, hcore⟩ :=
    quizSubmit_ok_inv quiz now1 sess pid a1 pen1 r sess1 h
  subst hqz
  obtain ⟨recE, pl, hstate⟩ := quizSubmitCore_state qz now1 sess pid a1 pen1 question
  have h2 : sess1 = { sess with
      answers := aset
        (if (alookup sess.answers (toString sess.current_index)).isSome = true
         then sess.answers
         else aset sess.answers (toString sess.current_index) [])
        (toString sess.current_index)
        (aset ((alookup sess.answers (toString sess.current_index)).getD [])
          pid recE),
      players := aset sess.players pid pl } := by
    have hsnd := congrArg Prod.snd hcore
    rw [hstate] at hsnd
    exact hsnd.symm
  subst h2
  apply quizSubmit_already
  · show (alookup (aset sess.players pid pl) pid).isSome = true
    rw [alookup_aset_self]
    rfl
  · exact not_lt.mp hci
  · show (qz.questions[sess.current_index.toNat]?).isSome = true
    rw [hq]
    rfl
  · show (alookup ((alookup
        (aset _ (toString sess.current_index) _) (toString sess.current_index)).getD [])
        pid).isSome = true
    rw [alookup_aset_self]
    show (alookup (aset _ pid recE) pid).isSome = true
    rw [alookup_aset_self]
    rfl

def demoQuiz : Quiz :=
  { questions := [{ kind := .single, correct := "A", correctSet := [], order := [],
                    pairs := [], points := 5, time_sec := none, penalty_points := none }],
    time_per_question := none }

def demoQuizSess : QuizSession :=
  { status := .running, phase := .question, current_index := 0, reveal := false,
    q_started_at := none, players := [("p1", ⟨"Alice", 0⟩)], answers := [] }

theorem demoFirstSubmit_fst :
    (quizSubmit (some demoQuiz) 1000 demoQuizSess "p1" (.str "A") false).1 = .ok 5 := by
  norm_num [quizSubmit, quizSubmitCore, demoQuiz, demoQuizSess, alookup, gradeQuizRatio,
    pyStr, timePerQ, round3]

/-- Witness for C7: a concrete accepted first submission followed by a
second submission by the same player. -/
theorem C7_second_submit_conflict_witness :
    quizSubmit (some demoQuiz) 2000
        (quizSubmit (some demoQuiz) 1000 demoQuizSess "p1" (.str "A") false).2
        "p1" (.str "B") true
      = (.error "Already answered",
         (quizSubmit (some demoQuiz) 1000 demoQuizSess "p1" (.str "A") false).2) :=
  C7_second_submit_conflict (some demoQuiz) 1000 2000 demoQuizSess
    (quizSubmit (some demoQuiz) 1000 demoQuizSess "p1" (.str "A") false).2
    "p1" (.str "A") (.str "B") false true 5
    (Prod.ext demoFirstSubmit_fst rfl)

/-! ## Debates: data model, lifecycle and score aggregation
(`src/app.py`: creation lines 725–756, `live_start`/`live_stop` lines
1402–1443, `jury_vote_page` lines 1225–1309, `_compute_totals` lines
666–716) -/

/-- `status`: "planned / live / finished" (comment at line 743). -/
inductive DStatus where
  | planned | live | finished
deriving Repr, DecidableEq

structure LiveInfo where
  active : Bool
  started_at : Option Int
deriving Repr, DecidableEq

/-- A signup choice: "judge", "advocate", "any" or "none". -/
inductive Choice where
  | judge | advocate | anyRole | noChoice
deriving Repr, DecidableEq

structure DebFormat where
  team_count : ℕ
  team_size : ℕ
  judge_count : ℕ
deriving Repr, DecidableEq

structure Step where
  title : String
  action : String
  round : String
deriving Repr, DecidableEq

/-- A rubric criterion; `cmin`/`cmax` are `none` when the JSON key is
absent (the source checks `c.get("min") is not None`). -/
structure Criterion where
  key : String
  cmin : Option ℚ
  cmax : Option ℚ
  ctype : String
  round : String
deriving Repr, DecidableEq

/-- `scores`: jury is step → judge → team → criterion → value, public is
step → per-step vote map; step keys are `str(step)`. -/
structure Scores where
  jury : List (String × List (String × List (String × List (String × ℚ))))
  public : List (String × PubStep)
deriving Repr

instance : DecidableEq Scores
  | ⟨j1, p1⟩, ⟨j2, p2⟩ =>
    if h1 : j1 = j2 then
      if h2 : p1 = p2 then isTrue (by rw [h1, h2])
      else isFalse (by simp [Scores.mk.injEq, h2])
    else isFalse (by simp [Scores.mk.injEq, h1])

structure Debate where
  id : String
  status : DStatus
  judges : List String
  teams : List Team
  reserves : List String
  flow : List Step
  rubric : List Criterion
  signups : List (String × Choice)
  format : DebFormat
  scores : Scores
  live : LiveInfo
deriving Repr, DecidableEq

/-- `live_start` (lines 1402–1420): unconditionally flips the live flag
on and sets `status = "live"`. -/
def liveStart (now : Int) (debate : Debate) : Debate :=
  { debate with live := { active := true, started_at := some now }, status := .live }

/-- `live_stop` (lines 1422–1443): unconditionally flips the live flag
off and sets `status = "finished"` (point awarding is an external call). -/
def liveStop (debate : Debate) : Debate :=
  { debate with live := { debate.live with active := false }, status := .finished }

/-- The form data of one jury POST: the parsed float values keyed by
`(team_id, crit_key)`; a missing or unparseable form field is absent. -/
structure JuryForm where
  email : String
  team_choice : String
  values : List ((String × String) × ℚ)
deriving Repr, DecidableEq

def flookup (m : List ((String × String) × ℚ)) (k : String × String) : Option ℚ :=
  match m with
  | [] => none
  | (k0, v0) :: rest => if k0 = k then some v0 else flookup rest k

/-- `jury_vote_page` POST (lines 1225–1309): guards, rubric filtering,
clamping, and the last-write-wins store of the judge's map. -/
def juryVotePost (debate : Debate) (step : ℕ) (form : JuryForm) : String × Debate :=
  match debate.flow.get? step with
  | none => ("Invalid step", debate)
  | some st =>
    if ¬ (st.action = "jury_vote" ∨ st.action = "jury+public" ∨
          st.action = "simple_jury_vote" ∨ st.action = "simple_jury+public") then
      ("Not a jury vote step", debate)
    else if form.email ∉ debate.judges then
      ("Email is not in the jury for this debate.", debate)
    else
      let current_round := st.round
      let rubric := debate.rubric.filter (fun c =>
        c.ctype = "general" ∨ (c.ctype = "round" ∧ c.round = current_round))
      let is_simple := st.action = "simple_jury_vote" ∨ st.action = "simple_jury+public"
      let has_rubric := ¬ is_simple ∧ rubric.any (fun c => c.cmin.isSome ∧ c.cmax.isSome)
      let judge_map : List (String × List (String × ℚ)) :=
        if has_rubric then
          debate.teams.foldl (fun jm t =>
            rubric.foldl (fun jm c =>
              match flookup form.values (t.id, c.key) with
              | none => jm
              | some v =>
                let minv := c.cmin.getD 0
                let maxv := c.cmax.getD 10
                let v := max minv (min maxv v)
                aset jm t.id (aset ((alookup jm t.id).getD []) c.key v)) jm) []
        else
          if debate.teams.any (fun t => t.id = form.team_choice) then
            [(form.team_choice, [("default", 1)])]
          else []
      let jury := debate.scores.jury
      let step_map := (alookup jury (toString step)).getD []
      let step_map := aset step_map form.email judge_map
      let jury := aset jury (toString step) step_map
      ("Vote recorded. Thank you!",
       { debate with scores := { debate.scores with jury := jury } })

/-- The stored public step map (`pub.get(str(step)) or {}`). -/
def getPub (debate : Debate) (step : ℕ) : PubStep :=
  (alookup debate.scores.public (toString step)).getD ⟨[], []⟩

def setPub (debate : Debate) (step : ℕ) (sm : PubStep) : Debate :=
  { debate with scores :=
      { debate.scores with public := aset debate.scores.public (toString step) sm } }

/-- `public_vote_page` POST at debate level (lines 1129–1186): step and
action guards, then the eligibility guards and tally mutation. -/
def publicVoteDebate (invited : List String) (debate : Debate) (step : ℕ)
    (email team_id : String) : String × Debate :=
  match debate.flow.get? step with
  | none => ("Invalid step", debate)
  | some st =>
    if ¬ (st.action = "public_vote" ∨ st.action = "jury+public" ∨
          st.action = "simple_jury+public") then
      ("Not a public vote step", debate)
    else
      match publicVotePost debate.judges debate.teams invited (getPub debate step)
          email team_id with
      | (.accepted, sm) => ("Vote recorded. Thank you!", setPub debate step sm)
      | (.rejected m, _) => (m, debate)

/-- The operations of the debate lifecycle the claims quantify over. -/
inductive DebateOp where
  | liveStartOp (now : Int)
  | liveStopOp
  | publicVoteOp (invited : List String) (step : ℕ) (email team_id : String)
  | juryVoteOp (step : ℕ) (form : JuryForm)
deriving Repr, DecidableEq

def applyDebateOp (d : Debate) : DebateOp → Debate
  | .liveStartOp now => liveStart now d
  | .liveStopOp => liveStop d
  | .publicVoteOp inv step e t => (publicVoteDebate inv d step e t).2
  | .juryVoteOp step f => (juryVotePost d step f).2

/-- `_compute_totals` (lines 666–716).  Machine floats carry only exact
small values here; they are embedded as `ℚ`. -/
def computeTotals (debate : Debate) : List (String × ℚ) :=
  let totals0 := debate.teams.foldl
    (fun acc t => if t.id ≠ "" then aset acc t.id 0 else acc) []
  let afterJury := debate.scores.jury.foldl (fun acc sp =>
    sp.2.foldl (fun acc jp =>
      jp.2.foldl (fun acc tp =>
        match alookup tp.2 "default" with
        | some v => aset acc tp.1 ((alookup acc tp.1).getD 0 + v)
        | none => tp.2.foldl
            (fun acc cv => aset acc tp.1 ((alookup acc tp.1).getD 0 + cv.2)) acc)
        acc) acc) totals0
  debate.scores.public.foldl (fun acc sp =>
    -- `if not step_map: continue` plus `if team_votes:`: the step
    -- contributes only when it stores at least one team tally
    match sp.2.tallies.map (fun p => p.2) with
    | [] => acc
    | v :: vs =>
      let max_votes := vs.foldl max v
      if max_votes > 0 then
        sp.2.tallies.foldl (fun acc p =>
          if p.2 = max_votes then aset acc p.1 ((alookup acc p.1).getD 0 + 1) else acc) acc
      else acc) afterJury

/-! ### C6: the debate status lifecycle -/

theorem publicVoteDebate_status (invited : List String) (d : Debate) (step : ℕ)
    (email team_id : String) :
    ((publicVoteDebate invited d step email team_id).2).status = d.status := by
  unfold publicVoteDebate
  rcases d.flow.get? step with _ | st
  · rfl
  · by_cases hc : ¬ (st.action = "public_vote" ∨ st.action = "jury+public" ∨
        st.action = "simple_jury+public")
    · simp only [if_pos hc]
    · simp only [if_neg hc]
      rcases h : publicVotePost d.judges d.teams invited (getPub d step) email team_id
        with ⟨out, sm⟩
      cases out <;> simp [setPub]

theorem juryVotePost_status (d : Debate) (step : ℕ) (f : JuryForm) :
    ((juryVotePost d step f).2).status = d.status := by
  unfold juryVotePost
  rcases d.flow.get? step with _ | st
  · rfl
  · by_cases h1 : ¬ (st.action = "jury_vote" ∨ st.action = "jury+public" ∨
        st.action = "simple_jury_vote" ∨ st.action = "simple_jury+public")
    · simp only [if_pos h1]
    · by_cases h2 : f.email ∉ d.judges
      · simp only [if_neg h1, if_pos h2]
      · simp only [if_neg h1, if_neg h2]

/-- C6 amended: `live_start` always sets status to live and `live_stop`
always sets it to finished, regardless of the current status, while vote
operations never change the status.  In particular the happy path is
planned → live → finished, but the transitions are not guarded: invoking
`live_start` on a finished debate moves it back to live. -/
theorem C6_status_transitions (d : Debate) (op : DebateOp) :
    (applyDebateOp d op).status =
      match op with
      | .liveStartOp _ => .live
      | .liveStopOp => .finished
      | .publicVoteOp _ _ _ _ => d.status
      | .juryVoteOp _ _ => d.status := by
  cases op with
  | liveStartOp now => rfl
  | liveStopOp => rfl
  | publicVoteOp inv step e t => exact publicVoteDebate_status inv d step e t
  | juryVoteOp step f => exact juryVotePost_status d step f

def demoFinishedDebate : Debate :=
  { id := "d9", status := .finished, judges := ["judge1@x"], teams := demoTeams,
    reserves := [], flow := [], rubric := [], signups := [], format := ⟨2, 2, 2⟩,
    scores := ⟨[], []⟩, live := ⟨false, some 10⟩ }

/-- C6: refuted on the code.  `live_start` on a finished debate sets its
status back to live (and re-activates the live flag): the status is not
monotonic under the lifecycle operations. -/
theorem C6_finished_back_to_live :
    demoFinishedDebate.status = .finished ∧
    (applyDebateOp demoFinishedDebate (.liveStartOp 42)).status = .live ∧
    (applyDebateOp demoFinishedDebate (.liveStartOp 42)).live.active = true :=
  ⟨rfl, rfl, rfl⟩

/-! ### C9: end-to-end score aggregation -/

def demoDebate0 : Debate :=
  { id := "d1", status := .planned, judges := ["judge1@x", "judge2@x"],
    teams := [⟨"A", "Team A", ["a1@x", "a2@x"]⟩, ⟨"B", "Team B", ["b1@x", "b2@x"]⟩],
    reserves := [],
    flow := [⟨"Round 1", "simple_jury_vote", "1"⟩, ⟨"Public", "public_vote", "1"⟩],
    rubric := [], signups := [], format := ⟨2, 2, 2⟩, scores := ⟨[], []⟩,
    live := ⟨false, none⟩ }

def demoInvitedVoters : List String := ["v1@x", "v2@x", "v3@x"]

/-- The debate after judge1 picks A and judge2 picks B on the simple jury
step, and three distinct invited voters split 2-for-A / 1-for-B on the
public step. -/
def demoDebateScored : Debate :=
  List.foldl applyDebateOp demoDebate0
    [.juryVoteOp 0 ⟨"judge1@x", "A", []⟩,
     .juryVoteOp 0 ⟨"judge2@x", "B", []⟩,
     .publicVoteOp demoInvitedVoters 1 "v1@x" "A",
     .publicVoteOp demoInvitedVoters 1 "v2@x" "A",
     .publicVoteOp demoInvitedVoters 1 "v3@x" "B"]

/-- C9: on the two-team debate with one simple jury step (judge1 → A,
judge2 → B) and one public step with votes 2-for-A / 1-for-B, the
aggregator returns A = 2.0 (1.0 jury + 1.0 public majority) and B = 1.0;
on the same debate with an empty scores structure it returns 0.0 for both
teams. -/
theorem C9_totals_scenario :
    computeTotals demoDebateScored = [("A", 2), ("B", 1)] ∧
    computeTotals demoDebate0 = [("A", 0), ("B", 0)] := by
  have hlit : demoDebateScored = { demoDebate0 with scores :=
      ⟨[("0", [("judge1@x", [("A", [("default", 1)])]),
              ("judge2@x", [("B", [("default", 1)])])])],
       [("1", ⟨[("A", 2), ("B", 1)],
               [("v1@x", "A"), ("v2@x", "A"), ("v3@x", "B")]⟩)]⟩ } := by
    decide
  constructor
  · rw [hlit]
    simp [computeTotals, demoDebate0, alookup, aset]
    norm_num
  · simp [computeTotals, demoDebate0, alookup, aset]

/-! ## AssignmentPlanner (`debate_randomize`, `src/app.py` lines 914–1126)

The randomness of the source (`random.shuffle` at each call site and the
`random.random()` tiebreak inside `sort_key`) is abstracted into a
`PlannerRand` record holding one function per shuffle call site and one
tiebreak key per sort call site; a run of the source corresponds to a
record whose shuffle functions are permutations. -/

structure Member where
  email : String
  studio : String
  external : Bool
deriving Repr, DecidableEq

/-- `.strip()`: drop whitespace from both ends. -/
def pyStrip (l : List Char) : List Char :=
  ((l.dropWhile Char.isWhitespace).reverse.dropWhile Char.isWhitespace).reverse

/-- `_pmail`: `(s or "").strip().lower()`. -/
def pmail (s : String) : String := ⟨(pyStrip s.data).map Char.toLower⟩

/-- `_member_by_email` (lines 446–451). -/
def memberByEmail (members : List Member) (email : String) : Option Member :=
  members.find? (fun m => pmail m.email = pmail email)

/-- `_studio_of` (lines 453–455): `(studio or "").strip().upper()`. -/
def studioOf (members : List Member) (email : String) : String :=
  ⟨(pyStrip (((memberByEmail members email).map Member.studio).getD "").data).map
    Char.toUpper⟩

/-- `_participations_count` (lines 926–937): one per debate where the
email appears among the judges, one per team containing it, one per
debate where it appears among the reserves. -/
def participationsCount (debates : List Debate) (email : String) : ℕ :=
  let em := pmail email
  debates.foldl (fun cnt d =>
    let cnt := if d.judges.any (fun x => pmail x = em) then cnt + 1 else cnt
    let cnt := d.teams.foldl
      (fun c t => if t.members.any (fun x => pmail x = em) then c + 1 else c) cnt
    if d.reserves.any (fun x => pmail x = em) then cnt + 1 else cnt) 0

/-- `list(dict.fromkeys(...))`: de-duplication keeping first occurrences. -/
def pyDedup (l : List String) : List String :=
  l.foldl (fun acc e => if e ∈ acc then acc else acc ++ [e]) []

/-- `pool.sort(key=sort_key)` with `sort_key(e) = (count(e), random())`:
a stable sort by the pair key.  Embedded as the unique sort by the strict
triple (count, tiebreak, original position), which coincides with
Python's stable sort for every tiebreak assignment. -/
def sortByCount (cnt tb : String → ℕ) (l : List String) : List String :=
  (List.insertionSort
    (fun a b : (ℕ × ℕ) × ℕ × String =>
      a.1.1 < b.1.1 ∨ (a.1.1 = b.1.1 ∧
        (a.1.2 < b.1.2 ∨ (a.1.2 = b.1.2 ∧ a.2.1 ≤ b.2.1))))
    (l.enum.map (fun p => ((cnt p.2, tb p.2), p.1, p.2)))).map (fun q => q.2.2)

structure PlannerRand where
  tbJ : String → ℕ
  tbA : String → ℕ
  shufJ : List String → List String
  shufA : List String → List String
  shufCCj : List String → List String
  shufWSj : List String → List String
  shufOTj : List String → List String
  shufCCr : List String → List String
  shufWSr : List String → List String
  shufOTr : List String → List String
  shufAll : List String → List String
  shufRes : List String → List String

/-- A randomness record drawn from actual runs: every shuffle is a
permutation of its input. -/
structure PlannerRand.Valid (r : PlannerRand) : Prop where
  shufJ : ∀ l, (r.shufJ l).Perm l
  shufA : ∀ l, (r.shufA l).Perm l
  shufCCj : ∀ l, (r.shufCCj l).Perm l
  shufWSj : ∀ l, (r.shufWSj l).Perm l
  shufOTj : ∀ l, (r.shufOTj l).Perm l
  shufCCr : ∀ l, (r.shufCCr l).Perm l
  shufWSr : ∀ l, (r.shufWSr l).Perm l
  shufOTr : ∀ l, (r.shufOTr l).Perm l
  shufAll : ∀ l, (r.shufAll l).Perm l
  shufRes : ∀ l, (r.shufRes l).Perm l

/-- The degenerate randomness: identity shuffles, constant tiebreaks. -/
def idRand : PlannerRand :=
  { tbJ := fun _ => 0, tbA := fun _ => 0,
    shufJ := id, shufA := id, shufCCj := id, shufWSj := id, shufOTj := id,
    shufCCr := id, shufWSr := id, shufOTr := id, shufAll := id, shufRes := id }

theorem idRand_valid : idRand.Valid where
  shufJ := fun l => List.Perm.refl l
  shufA := fun l => List.Perm.refl l
  shufCCj := fun l => List.Perm.refl l
  shufWSj := fun l => List.Perm.refl l
  shufOTj := fun l => List.Perm.refl l
  shufCCr := fun l => List.Perm.refl l
  shufWSr := fun l => List.Perm.refl l
  shufOTr := fun l => List.Perm.refl l
  shufAll := fun l => List.Perm.refl l
  shufRes := fun l => List.Perm.refl l

inductive PlanError where
  | insufficientMembers (need got : ℕ)
  | insufficientAdvocates (need : ℕ) (got : Int)
  | insufficientJudges (need got : ℕ)
  | teamUnderfilled (name : String) (got need : ℕ)
deriving Repr, DecidableEq

structure PlanResult where
  judges : List String
  teams : List Team
  reserves : List String
deriving Repr, DecidableEq

def freshTeams (start : ℕ) : ℕ → List Team
  | 0 => []
  | n + 1 => ⟨"t" ++ toString (start + 1), "Team " ++ toString (start + 1), []⟩
      :: freshTeams (start + 1) n

/-- `while len(teams) < team_count: teams.append({...})` (lines
1051–1053): each appended fresh team is numbered by the length at the
time of the append. -/
def padTeams (ts : List Team) (team_count : ℕ) : List Team :=
  ts ++ freshTeams ts.length (team_count - ts.length)

/-- The per-team fill loop (lines 1086–1092): pop from the front while
the team is under `team_size`, skipping already-used members. -/
def fillLoop (team_size : ℕ) : List String → Team → List String →
    Team × List String × List String
  | [], t, used => (t, [], used)
  | p :: rest, t, used =>
    if t.members.length < team_size then
      if p ∈ used then fillLoop team_size rest t used
      else fillLoop team_size rest { t with members := t.members ++ [p] } (p :: used)
    else (t, p :: rest, used)

def fillTeams (team_size : ℕ) : List Team → List String → List String →
    List Team × List String × List String
  | [], pool, used => ([], pool, used)
  | t :: ts, pool, used =>
    let r1 := fillLoop team_size pool t used
    let r2 := fillTeams team_size ts r1.2.1 r1.2.2
    (r1.1 :: r2.1, r2.2.1, r2.2.2)

/-- The in-memory effect on `debate["teams"]` when the function aborts
after the fill: the first `min(len(teams), team_count)` team dicts are
shared with the working list, so their member lists have already been
overwritten; appended fresh teams exist only in the working list. -/
def overwriteShared (orig filled : List Team) (team_count : ℕ) : List Team :=
  orig.mapIdx (fun i t =>
    if i < team_count then
      match filled.get? i with
      | some ft => { t with members := ft.members }
      | none => t
    else t)

/-! The body of `debate_randomize` is a straight line of list
computations interrupted by early error returns; the guards read only
values computed before them, so each intermediate value is embedded as a
named stage (`dr…`) and the handler as a guard chain over the stages. -/

/-- Signups with choice "judge" whose email is a member (lines 952–953). -/
def drJudgesOnly (members : List Member) (debate : Debate) : List String :=
  (debate.signups.filter
    (fun p => p.2 = Choice.judge ∧ (memberByEmail members p.1).isSome)).map Prod.fst

/-- Signups with choice "advocate" (lines 954–955). -/
def drAdvocatesOnly (members : List Member) (debate : Debate) : List String :=
  (debate.signups.filter
    (fun p => p.2 = Choice.advocate ∧ (memberByEmail members p.1).isSome)).map Prod.fst

/-- Signups with choice "any" (lines 956–957). -/
def drAnyRole (members : List Member) (debate : Debate) : List String :=
  (debate.signups.filter
    (fun p => p.2 = Choice.anyRole ∧ (memberByEmail members p.1).isSome)).map Prod.fst

/-- Judge pool: dedup, participation sort, then the full shuffle that
follows it (lines 961–973). -/
def drJudgesPool (debates : List Debate) (members : List Member) (debate : Debate)
    (rand : PlannerRand) : List String :=
  rand.shufJ (sortByCount (participationsCount debates) rand.tbJ
    (pyDedup (drJudgesOnly members debate ++ drAnyRole members debate)))

/-- Advocate pool (lines 965–974). -/
def drAdvocatesPool (debates : List Debate) (members : List Member) (debate : Debate)
    (rand : PlannerRand) : List String :=
  rand.shufA (sortByCount (participationsCount debates) rand.tbA
    (pyDedup (drAdvocatesOnly members debate ++ drAnyRole members debate)))

/-- The shared quota arithmetic of both judge-selection phases
(lines 1016–1022 and 1032–1038): at most `quota / 2` from the CC list,
then up to the remainder from WSOP, and the rest charged to the other
list (whose take silently truncates when the list is shorter). -/
def takeBalanced (quota : ℕ) (ccl wsl otl : List String) : List String :=
  let ccN := min ccl.length (quota / 2)
  let wsN := min wsl.length (quota - ccN)
  let otN := quota - ccN - wsN
  ccl.take ccN ++ wsl.take wsN ++ otl.take otN

/-- Phase one of judge selection (lines 1011–1022): balanced takes from
the judges-only members of each studio class. -/
def pickP1 (jc : ℕ) (ccj wsj otj jo : List String) : List String :=
  takeBalanced jc (ccj.filter (fun e => e ∈ jo)) (wsj.filter (fun e => e ∈ jo))
    (otj.filter (fun e => e ∈ jo))

/-- Both phases (lines 1008–1038): when phase one is short, fill the
remainder with balanced takes from the not-yet-picked pool members. -/
def pickJudgesPhase2 (jc : ℕ) (ccj wsj otj jo : List String) : List String :=
  if jc - (pickP1 jc ccj wsj otj jo).length > 0 then
    pickP1 jc ccj wsj otj jo ++ takeBalanced (jc - (pickP1 jc ccj wsj otj jo).length)
      (ccj.filter (fun e => e ∉ pickP1 jc ccj wsj otj jo))
      (wsj.filter (fun e => e ∉ pickP1 jc ccj wsj otj jo))
      (otj.filter (fun e => e ∉ pickP1 jc ccj wsj otj jo))
  else pickP1 jc ccj wsj otj jo

/-- Judge selection with CC/WSOP balancing, judges-only first then the
remainder of the pool (lines 996–1038). -/
def pickJudges (members : List Member) (judges_only judges_pool : List String)
    (judge_count : ℕ) (rand : PlannerRand) : List String :=
  pickJudgesPhase2 judge_count
    (rand.shufCCj (judges_pool.filter (fun e => studioOf members e = "CC")))
    (rand.shufWSj (judges_pool.filter (fun e => studioOf members e = "WSOP")))
    (rand.shufOTj (judges_pool.filter
      (fun e => studioOf members e ≠ "CC" ∧ studioOf members e ≠ "WSOP")))
    judges_only

def drPickedJudges (debates : List Debate) (members : List Member) (debate : Debate)
    (rand : PlannerRand) : List String :=
  pickJudges members (drJudgesOnly members debate)
    (drJudgesPool debates members debate rand) debate.format.judge_count rand

/-- `remaining_advocates` (line 1041). -/
def drRemainingAdvocates (debates : List Debate) (members : List Member) (debate : Debate)
    (rand : PlannerRand) : List String :=
  (drAdvocatesPool debates members debate rand).filter
    (fun e => e ∉ drPickedJudges debates members debate rand)

/-- Teams trimmed/padded to `team_count` with members reset
(lines 1050–1055). -/
def drTeams0 (debate : Debate) : List Team :=
  (padTeams (debate.teams.take debate.format.team_count) debate.format.team_count).map
    (fun t => { t with members := [] })

/-- The advocate feed for the fill: per-studio split, shuffles,
concatenation, final reshuffle (lines 1058–1079).  The shuffled
team-order list of lines 1069–1070 is dead code (the fill iterates the
teams in list order) and the `team_counts` helper is unused; both are
omitted. -/
def drAllRemaining (debates : List Debate) (members : List Member) (debate : Debate)
    (rand : PlannerRand) : List String :=
  let remaining_advocates := drRemainingAdvocates debates members debate rand
  let cc_rem := rand.shufCCr (remaining_advocates.filter
    (fun e => studioOf members e = "CC"))
  let ws_rem := rand.shufWSr (remaining_advocates.filter
    (fun e => studioOf members e = "WSOP"))
  let ot_rem := rand.shufOTr (remaining_advocates.filter
    (fun e => studioOf members e ≠ "CC" ∧ studioOf members e ≠ "WSOP"))
  rand.shufAll (cc_rem ++ ws_rem ++ ot_rem)

/-- The fill of lines 1086–1092. -/
def drFill (debates : List Debate) (members : List Member) (debate : Debate)
    (rand : PlannerRand) : List Team × List String × List String :=
  fillTeams debate.format.team_size (drTeams0 debate)
    (drAllRemaining debates members debate rand) []

/-- Reserves: everyone available and unused, shuffled (lines 1104–1110). -/
def drReserves (debates : List Debate) (members : List Member) (debate : Debate)
    (rand : PlannerRand) : List String :=
  let all_available := drJudgesOnly members debate ++ drAdvocatesOnly members debate
    ++ drAnyRole members debate
  rand.shufRes (all_available.filter
    (fun e => ¬ (e ∈ drPickedJudges debates members debate rand ∨
                 e ∈ (drFill debates members debate rand).2.2)))

/-- `debate_randomize` (lines 914–1126).  Returns the planning outcome
together with the post-call in-memory debate (the handler saves to the
store only on the `.ok` path, at line 1121). -/
def debateRandomize (debates : List Debate) (members : List Member) (debate : Debate)
    (rand : PlannerRand) : Except PlanError PlanResult × Debate :=
  let team_count := debate.format.team_count
  let team_size := debate.format.team_size
  let judge_count := debate.format.judge_count
  let total_slots := team_count * team_size
  let judges_only := drJudgesOnly members debate
  let advocates_only := drAdvocatesOnly members debate
  let any_role := drAnyRole members debate
  let all_eligible := pyDedup (judges_only ++ advocates_only ++ any_role)
  if all_eligible.length < total_slots + judge_count then
    (.error (.insufficientMembers (total_slots + judge_count) all_eligible.length), debate)
  else
    -- max(0, judge_count - len(judges_only)) is truncated subtraction
    let judges_from_any_role := judge_count - judges_only.length
    let advocates_available : Int :=
      (advocates_only.length : Int) + any_role.length - judges_from_any_role
    if advocates_available < (total_slots : Int) then
      (.error (.insufficientAdvocates total_slots advocates_available), debate)
    else if (drJudgesPool debates members debate rand).length < judge_count then
      (.error (.insufficientJudges judge_count
        (drJudgesPool debates members debate rand).length), debate)
    else
      let picked_judges := drPickedJudges debates members debate rand
      let teams1 := (drFill debates members debate rand).1
      match teams1.find? (fun t => t.members.length < team_size) with
      | some t =>
          (.error (.teamUnderfilled t.name t.members.length team_size),
           { debate with teams := overwriteShared debate.teams teams1 team_count })
      | none =>
        let reserves := drReserves debates members debate rand
        (.ok ⟨picked_judges, teams1, reserves⟩,
         { debate with judges := picked_judges, teams := teams1, reserves := reserves })

/-! ### C2: the shape of a successful plan -/

def c2Members : List Member :=
  [⟨"a1@x", "CC", false⟩, ⟨"a2@x", "CC", false⟩,
   ⟨"a3@x", "CC", false⟩, ⟨"a4@x", "CC", false⟩]

def c2Debate : Debate :=
  { id := "c2", status := .planned, judges := [], teams := [], reserves := [],
    flow := [], rubric := [],
    signups := [("a1@x", .anyRole), ("a2@x", .anyRole), ("a3@x", .anyRole),
                ("a4@x", .advocate)],
    format := ⟨1, 1, 3⟩, scores := ⟨[], []⟩, live := ⟨false, none⟩ }

/-- C2: refuted on the code.  With judge_count = 3 and a pool of exactly
team_count·team_size + judge_count = 4 eligible signups (so the
minimum-pool precondition holds), the planner succeeds yet returns only
one judge: all three judge candidates are same-studio "any"-role members,
and the balancing arithmetic caps the CC picks at
remaining_needed / 2 = 1 while charging the shortfall to the empty WSOP
and other-studio lists. -/
theorem C2_success_with_fewer_judges :
    (debateRandomize [c2Debate] c2Members c2Debate idRand).1
      = .ok ⟨["a1@x"], [⟨"t1", "Team 1", ["a4@x"]⟩], ["a2@x", "a3@x"]⟩ ∧
    c2Debate.format.judge_count = 3 ∧
    (pyDedup (drJudgesOnly c2Members c2Debate ++ drAdvocatesOnly c2Members c2Debate
      ++ drAnyRole c2Members c2Debate)).length
      = c2Debate.format.team_count * c2Debate.format.team_size
        + c2Debate.format.judge_count := by
  decide

/-! ### C3: participation-count priority -/

def c3Members : List Member :=
  [⟨"alice@x", "", false⟩, ⟨"bob@x", "", false⟩,
   ⟨"c1@x", "", false⟩, ⟨"c2@x", "", false⟩]

/-- A past debate in which alice was a judge (one participation). -/
def c3PrevDebate : Debate :=
  { id := "c3prev", status := .finished, judges := ["alice@x"], teams := [],
    reserves := [], flow := [], rubric := [], signups := [], format := ⟨2, 2, 2⟩,
    scores := ⟨[], []⟩, live := ⟨false, none⟩ }

def c3Debate : Debate :=
  { id := "c3", status := .planned, judges := [], teams := [], reserves := [],
    flow := [], rubric := [],
    signups := [("bob@x", .judge), ("alice@x", .judge),
                ("c1@x", .advocate), ("c2@x", .advocate)],
    format := ⟨1, 1, 1⟩, scores := ⟨[], []⟩, live := ⟨false, none⟩ }

/-- A legitimate randomness draw whose judge-pool shuffle happens to
reverse the list. -/
def c3Rand : PlannerRand := { idRand with shufJ := List.reverse }

/-- C3: refuted on the code.  The participation sort of line 969 does
order the judge pool ascending (bob with 0 participations before alice
with 1), but the full `random.shuffle` of line 973 then discards that
order: under the legitimate draw that reverses the pool, the planner
selects alice — the strictly more-participated candidate — even though
bob is available, so the less-participated candidate is not always
preferred.  (`c3Rand.Valid` certifies the draw is a permutation at every
shuffle site.) -/
theorem C3_shuffle_defeats_priority :
    c3Rand.Valid ∧
    participationsCount [c3PrevDebate, c3Debate] "alice@x" = 1 ∧
    participationsCount [c3PrevDebate, c3Debate] "bob@x" = 0 ∧
    sortByCount (participationsCount [c3PrevDebate, c3Debate]) c3Rand.tbJ
      (pyDedup (drJudgesOnly c3Members c3Debate ++ drAnyRole c3Members c3Debate))
      = ["bob@x", "alice@x"] ∧
    drJudgesPool [c3PrevDebate, c3Debate] c3Members c3Debate c3Rand
      = ["alice@x", "bob@x"] ∧
    (debateRandomize [c3PrevDebate, c3Debate] c3Members c3Debate c3Rand).1
      = .ok ⟨["alice@x"], [⟨"t1", "Team 1", ["c1@x"]⟩], ["bob@x", "c2@x"]⟩ := by
  refine ⟨?_, by decide, by decide, by decide, by decide, by decide⟩
  exact { idRand_valid with shufJ := fun l => List.reverse_perm l }

/-! ### C4: atomicity of the planner on error -/

def c4Members : List Member :=
  [⟨"j1@x", "CC", false⟩, ⟨"j2@x", "CC", false⟩, ⟨"j3@x", "CC", false⟩,
   ⟨"w1@x", "WSOP", false⟩, ⟨"a1@x", "CC", false⟩]

/-- A debate that already has an assigned team before re-randomizing. -/
def c4Debate : Debate :=
  { id := "c4", status := .planned, judges := [],
    teams := [⟨"t1", "Team 1", ["x@x", "y@x"]⟩],
    reserves := [], flow := [], rubric := [],
    signups := [("j1@x", .judge), ("j2@x", .judge), ("j3@x", .judge),
                ("w1@x", .anyRole), ("a1@x", .advocate)],
    format := ⟨1, 2, 2⟩, scores := ⟨[], []⟩, live := ⟨false, none⟩ }

/-- C4: refuted on the code.  All three insufficient-pool checks pass
(the any-role member is charged to the advocates in the estimate), yet
judge selection consumes the any-role member, the single remaining
advocate cannot fill the team, and the planner fails with TeamUnderfilled
after having reset and partially refilled the shared team dicts: the
in-memory debate's team members changed from [x@x, y@x] to [a1@x] on an
error return.  (No store write happens: the handler saves only on
success.) -/
theorem C4_underfill_mutates_teams :
    (debateRandomize [c4Debate] c4Members c4Debate idRand).1
      = .error (.teamUnderfilled "Team 1" 1 2) ∧
    c4Debate.teams = [⟨"t1", "Team 1", ["x@x", "y@x"]⟩] ∧
    (debateRandomize [c4Debate] c4Members c4Debate idRand).2.teams
      = [⟨"t1", "Team 1", ["a1@x"]⟩] ∧
    (debateRandomize [c4Debate] c4Members c4Debate idRand).2 ≠ c4Debate := by
  decide

/-! ### Structural lemmas for the planner stages -/

theorem pyDedup_aux (l : List String) : ∀ acc : List String, acc.Nodup →
    ((l.foldl (fun acc e => if e ∈ acc then acc else acc ++ [e]) acc).Nodup ∧
     ∀ x, x ∈ l.foldl (fun acc e => if e ∈ acc then acc else acc ++ [e]) acc ↔
       x ∈ acc ∨ x ∈ l) := by
  induction l with
  | nil => exact fun acc h => ⟨h, fun x => by simp⟩
  | cons a rest ih =>
    intro acc hacc
    by_cases ha : a ∈ acc
    · rw [show (a :: rest).foldl (fun acc e => if e ∈ acc then acc else acc ++ [e]) acc
          = rest.foldl (fun acc e => if e ∈ acc then acc else acc ++ [e]) acc from by
            simp [ha]]
      have := ih acc hacc
      refine ⟨this.1, fun x => ?_⟩
      rw [(this.2 x)]
      constructor
      · rintro (h | h)
        · exact Or.inl h
        · exact Or.inr (List.mem_cons_of_mem _ h)
      · rintro (h | h)
        · exact Or.inl h
        · rcases List.mem_cons.mp h with h | h
          · subst h; exact Or.inl ha
          · exact Or.inr h
    · rw [show (a :: rest).foldl (fun acc e => if e ∈ acc then acc else acc ++ [e]) acc
          = rest.foldl (fun acc e => if e ∈ acc then acc else acc ++ [e]) (acc ++ [a]) from by
            simp [ha]]
      have hacc' : (acc ++ [a]).Nodup := by
        rw [List.nodup_append]
        exact ⟨hacc, List.nodup_singleton a, by simpa using ha⟩
      have := ih (acc ++ [a]) hacc'
      refine ⟨this.1, fun x => ?_⟩
      rw [(this.2 x)]
      simp only [List.mem_append, List.mem_singleton, List.mem_cons]
      tauto

theorem pyDedup_nodup (l : List String) : (pyDedup l).Nodup :=
  (pyDedup_aux l [] List.nodup_nil).1

theorem mem_pyDedup {l : List String} {x : String} : x ∈ pyDedup l ↔ x ∈ l := by
  rw [show pyDedup l = l.foldl (fun acc e => if e ∈ acc then acc else acc ++ [e]) [] from rfl,
    (pyDedup_aux l [] List.nodup_nil).2 x]
  simp

theorem sortByCount_perm (cnt tb : String → ℕ) (l : List String) :
    (sortByCount cnt tb l).Perm l := by
  unfold sortByCount
  have h1 := List.perm_insertionSort
    (fun a b : (ℕ × ℕ) × ℕ × String =>
      a.1.1 < b.1.1 ∨ (a.1.1 = b.1.1 ∧
        (a.1.2 < b.1.2 ∨ (a.1.2 = b.1.2 ∧ a.2.1 ≤ b.2.1))))
    (l.enum.map (fun p => ((cnt p.2, tb p.2), p.1, p.2)))
  have h2 := h1.map (fun q : (ℕ × ℕ) × ℕ × String => q.2.2)
  refine h2.trans ?_
  rw [List.map_map]
  have he : ∀ l' : List (ℕ × String),
      l'.map ((fun q : (ℕ × ℕ) × ℕ × String => q.2.2)
        ∘ (fun p : ℕ × String => ((cnt p.2, tb p.2), p.1, p.2))) = l'.map Prod.snd := by
    intro l'
    induction l' with
    | nil => rfl
    | cons p r ih => simp [ih]
  rw [he, List.enum_map_snd]

theorem takeBalanced_length (quota : ℕ) (a b c : List String) :
    (takeBalanced quota a b c).length ≤ quota := by
  unfold takeBalanced
  simp only [List.length_append, List.length_take]
  omega

theorem takeBalanced_subset (quota : ℕ) (a b c : List String) :
    ∀ x ∈ takeBalanced quota a b c, x ∈ a ∨ x ∈ b ∨ x ∈ c := by
  unfold takeBalanced
  intro x hx
  simp only [List.mem_append] at hx
  rcases hx with (h | h) | h
  · exact Or.inl (List.take_subset _ _ h)
  · exact Or.inr (Or.inl (List.take_subset _ _ h))
  · exact Or.inr (Or.inr (List.take_subset _ _ h))

theorem takeBalanced_nodup {quota : ℕ} {a b c : List String}
    (ha : a.Nodup) (hb : b.Nodup) (hc : c.Nodup)
    (hab : ∀ x ∈ a, x ∉ b) (hac : ∀ x ∈ a, x ∉ c) (hbc : ∀ x ∈ b, x ∉ c) :
    (takeBalanced quota a b c).Nodup := by
  unfold takeBalanced
  refine List.Nodup.append
    (List.Nodup.append (ha.sublist (List.take_sublist _ _))
      (hb.sublist (List.take_sublist _ _)) ?_)
    (hc.sublist (List.take_sublist _ _)) ?_
  · intro x hx hx2
    exact hab x (List.take_subset _ _ hx) (List.take_subset _ _ hx2)
  · intro x hx hx2
    rcases List.mem_append.mp hx with h | h
    · exact hac x (List.take_subset _ _ h) (List.take_subset _ _ hx2)
    · exact hbc x (List.take_subset _ _ h) (List.take_subset _ _ hx2)

theorem pickP1_subset (jc : ℕ) (ccj wsj otj jo : List String) :
    ∀ e ∈ pickP1 jc ccj wsj otj jo, e ∈ ccj ∨ e ∈ wsj ∨ e ∈ otj := by
  intro e he
  rcases takeBalanced_subset _ _ _ _ e he with h | h | h
  · exact Or.inl (List.mem_of_mem_filter h)
  · exact Or.inr (Or.inl (List.mem_of_mem_filter h))
  · exact Or.inr (Or.inr (List.mem_of_mem_filter h))

theorem pickP1_nodup {ccj wsj otj : List String} (jc : ℕ) (jo : List String)
    (hcc : ccj.Nodup) (hws : wsj.Nodup) (hot : otj.Nodup)
    (hcw : ∀ x ∈ ccj, x ∉ wsj) (hco : ∀ x ∈ ccj, x ∉ otj)
    (hwo : ∀ x ∈ wsj, x ∉ otj) :
    (pickP1 jc ccj wsj otj jo).Nodup := by
  apply takeBalanced_nodup (hcc.filter _) (hws.filter _) (hot.filter _)
  · exact fun x hx hx2 =>
      hcw x (List.mem_of_mem_filter hx) (List.mem_of_mem_filter hx2)
  · exact fun x hx hx2 =>
      hco x (List.mem_of_mem_filter hx) (List.mem_of_mem_filter hx2)
  · exact fun x hx hx2 =>
      hwo x (List.mem_of_mem_filter hx) (List.mem_of_mem_filter hx2)

theorem pickJudgesPhase2_subset (jc : ℕ) (ccj wsj otj jo : List String) :
    ∀ e ∈ pickJudgesPhase2 jc ccj wsj otj jo, e ∈ ccj ∨ e ∈ wsj ∨ e ∈ otj := by
  intro e he
  unfold pickJudgesPhase2 at he
  by_cases h : jc - (pickP1 jc ccj wsj otj jo).length > 0
  · rw [if_pos h] at he
    rcases List.mem_append.mp he with h1 | h1
    · exact pickP1_subset _ _ _ _ _ e h1
    · rcases takeBalanced_subset _ _ _ _ e h1 with h2 | h2 | h2
      · exact Or.inl (List.mem_of_mem_filter h2)
      · exact Or.inr (Or.inl (List.mem_of_mem_filter h2))
      · exact Or.inr (Or.inr (List.mem_of_mem_filter h2))
  · rw [if_neg h] at he
    exact pickP1_subset _ _ _ _ _ e he

theorem pickJudgesPhase2_length (jc : ℕ) (ccj wsj otj jo : List String) :
    (pickJudgesPhase2 jc ccj wsj otj jo).length ≤ jc := by
  unfold pickJudgesPhase2
  by_cases h : jc - (pickP1 jc ccj wsj otj jo).length > 0
  · rw [if_pos h]
    have h1 := takeBalanced_length (jc - (pickP1 jc ccj wsj otj jo).length)
      (ccj.filter (fun e => e ∉ pickP1 jc ccj wsj otj jo))
      (wsj.filter (fun e => e ∉ pickP1 jc ccj wsj otj jo))
      (otj.filter (fun e => e ∉ pickP1 jc ccj wsj otj jo))
    simp only [List.length_append]
    omega
  · rw [if_neg h]
    exact takeBalanced_length jc _ _ _

theorem pickJudgesPhase2_nodup {ccj wsj otj : List String} (jc : ℕ) (jo : List String)
    (hcc : ccj.Nodup) (hws : wsj.Nodup) (hot : otj.Nodup)
    (hcw : ∀ x ∈ ccj, x ∉ wsj) (hco : ∀ x ∈ ccj, x ∉ otj)
    (hwo : ∀ x ∈ wsj, x ∉ otj) :
    (pickJudgesPhase2 jc ccj wsj otj jo).Nodup := by
  unfold pickJudgesPhase2
  by_cases h : jc - (pickP1 jc ccj wsj otj jo).length > 0
  · rw [if_pos h]
    refine List.Nodup.append (pickP1_nodup jc jo hcc hws hot hcw hco hwo)
      (takeBalanced_nodup (hcc.filter _) (hws.filter _) (hot.filter _)
        (fun x hx hx2 =>
          hcw x (List.mem_of_mem_filter hx) (List.mem_of_mem_filter hx2))
        (fun x hx hx2 =>
          hco x (List.mem_of_mem_filter hx) (List.mem_of_mem_filter hx2))
        (fun x hx hx2 =>
          hwo x (List.mem_of_mem_filter hx) (List.mem_of_mem_filter hx2))) ?_
    intro x hx hx2
    have : x ∉ pickP1 jc ccj wsj otj jo := by
      rcases takeBalanced_subset _ _ _ _ x hx2 with h2 | h2 | h2 <;>
        simpa using (List.mem_filter.mp h2).2
    exact this hx
  · rw [if_neg h]
    exact pickP1_nodup jc jo hcc hws hot hcw hco hwo

theorem pickJudges_subset (ms : List Member) (jo pool : List String) (jc : ℕ)
    (r : PlannerRand)
    (hcc : ∀ l, (r.shufCCj l).Perm l) (hws : ∀ l, (r.shufWSj l).Perm l)
    (hot : ∀ l, (r.shufOTj l).Perm l) :
    ∀ e ∈ pickJudges ms jo pool jc r, e ∈ pool := by
  intro e he
  unfold pickJudges at he
  rcases pickJudgesPhase2_subset _ _ _ _ _ e he with h | h | h
  · exact List.mem_of_mem_filter ((hcc _).mem_iff.mp h)
  · exact List.mem_of_mem_filter ((hws _).mem_iff.mp h)
  · exact List.mem_of_mem_filter ((hot _).mem_iff.mp h)

theorem pickJudges_nodup (ms : List Member) (jo pool : List String) (jc : ℕ)
    (r : PlannerRand) (hpool : pool.Nodup)
    (hcc : ∀ l, (r.shufCCj l).Perm l) (hws : ∀ l, (r.shufWSj l).Perm l)
    (hot : ∀ l, (r.shufOTj l).Perm l) :
    (pickJudges ms jo pool jc r).Nodup := by
  unfold pickJudges
  apply pickJudgesPhase2_nodup
  · exact (hcc _).symm.nodup (hpool.filter _)
  · exact (hws _).symm.nodup (hpool.filter _)
  · exact (hot _).symm.nodup (hpool.filter _)
  · intro x hx hx2
    have h1 : studioOf ms x = "CC" := by
      simpa using (List.mem_filter.mp ((hcc _).mem_iff.mp hx)).2
    have h2 : studioOf ms x = "WSOP" := by
      simpa using (List.mem_filter.mp ((hws _).mem_iff.mp hx2)).2
    rw [h1] at h2
    exact absurd h2 (by decide)
  · intro x hx hx2
    have h1 : studioOf ms x = "CC" := by
      simpa using (List.mem_filter.mp ((hcc _).mem_iff.mp hx)).2
    have h2 := (List.mem_filter.mp ((hot _).mem_iff.mp hx2)).2
    simp only [decide_eq_true_eq] at h2
    exact h2.1 h1
  · intro x hx hx2
    have h1 : studioOf ms x = "WSOP" := by
      simpa using (List.mem_filter.mp ((hws _).mem_iff.mp hx)).2
    have h2 := (List.mem_filter.mp ((hot _).mem_iff.mp hx2)).2
    simp only [decide_eq_true_eq] at h2
    exact h2.2 h1

theorem pickJudges_length (ms : List Member) (jo pool : List String) (jc : ℕ)
    (r : PlannerRand) : (pickJudges ms jo pool jc r).length ≤ jc := by
  unfold pickJudges
  exact pickJudgesPhase2_length _ _ _ _ _

theorem fillLoop_spec (s : ℕ) (pool : List String) : ∀ (t : Team) (used : List String),
    ∃ δ leftover,
      fillLoop s pool t used
        = ({ t with members := t.members ++ δ }, leftover, δ.reverse ++ used) ∧
      (∀ x ∈ δ, x ∈ pool ∧ x ∉ used) ∧ δ.Nodup ∧
      (∀ x ∈ leftover, x ∈ pool) ∧
      (t.members.length ≤ s → t.members.length + δ.length ≤ s) := by
  induction pool with
  | nil =>
    intro t used
    refine ⟨[], [], by simp [fillLoop], by simp, List.nodup_nil, by simp, ?_⟩
    intro h
    simpa using h
  | cons p rest ih =>
    intro t used
    by_cases hlt : t.members.length < s
    · by_cases hp : p ∈ used
      · obtain ⟨δ, lft, heq, hδ, hnd, hlft, hlen⟩ := ih t used
        refine ⟨δ, lft, ?_, ?_, hnd, ?_, hlen⟩
        · rw [show fillLoop s (p :: rest) t used = fillLoop s rest t used from by
            simp [fillLoop, hlt, hp]]
          exact heq
        · exact fun x hx => ⟨List.mem_cons_of_mem _ (hδ x hx).1, (hδ x hx).2⟩
        · exact fun x hx => List.mem_cons_of_mem _ (hlft x hx)
      · obtain ⟨δ, lft, heq, hδ, hnd, hlft, hlen⟩ :=
          ih { t with members := t.members ++ [p] } (p :: used)
        refine ⟨p :: δ, lft, ?_, ?_, ?_, ?_, ?_⟩
        · rw [show fillLoop s (p :: rest) t used
              = fillLoop s rest { t with members := t.members ++ [p] } (p :: used) from by
            simp [fillLoop, hlt, hp]]
          rw [heq]
          have h1 : (t.members ++ [p]) ++ δ = t.members ++ p :: δ := by
            rw [List.append_assoc]
            rfl
          have h2 : δ.reverse ++ (p :: used) = (p :: δ).reverse ++ used := by
            rw [List.reverse_cons, List.append_assoc]
            rfl
          rw [h1, h2]
        · intro x hx
          rcases List.mem_cons.mp hx with h | h
          · subst h
            exact ⟨List.mem_cons_self _ _, hp⟩
          · have h2 := hδ x h
            exact ⟨List.mem_cons_of_mem _ h2.1,
              fun hxu => h2.2 (List.mem_cons_of_mem _ hxu)⟩
        · refine List.nodup_cons.mpr ⟨?_, hnd⟩
          intro hpδ
          exact (hδ p hpδ).2 (List.mem_cons_self _ _)
        · exact fun x hx => List.mem_cons_of_mem _ (hlft x hx)
        · intro hle
          have h1 : ({ t with members := t.members ++ [p] } : Team).members.length ≤ s := by
            simp
            omega
          have h2 := hlen h1
          simp at h2 ⊢
          omega
    · refine ⟨[], p :: rest, by simp [fillLoop, hlt], by simp, List.nodup_nil,
        fun x hx => hx, ?_⟩
      intro h
      simpa using h

theorem fillTeams_spec (s : ℕ) : ∀ (ts : List Team) (pool used : List String),
    (∀ t ∈ ts, t.members = []) →
    ((fillTeams s ts pool used).1.map Team.id = ts.map Team.id) ∧
    ((fillTeams s ts pool used).1.map Team.name = ts.map Team.name) ∧
    (∀ t ∈ (fillTeams s ts pool used).1, t.members.length ≤ s) ∧
    (∀ t ∈ (fillTeams s ts pool used).1, ∀ x ∈ t.members, x ∈ pool ∧ x ∉ used) ∧
    (∀ x, x ∈ (fillTeams s ts pool used).2.2 ↔
       x ∈ used ∨ ∃ t ∈ (fillTeams s ts pool used).1, x ∈ t.members) ∧
    ((fillTeams s ts pool used).1.map Team.members).flatten.Nodup := by
  intro ts
  induction ts with
  | nil =>
    intro pool used hts
    refine ⟨rfl, rfl, by simp [fillTeams], by simp [fillTeams], ?_, by simp [fillTeams]⟩
    intro x
    simp [fillTeams]
  | cons t ts ih =>
    intro pool used hts
    have ht : t.members = [] := hts t (List.mem_cons_self _ _)
    obtain ⟨δ, lft, heq, hδ, hnd, hlft, hlen⟩ := fillLoop_spec s pool t used
    have hts' : ∀ t' ∈ ts, t'.members = [] := fun t' h => hts t' (List.mem_cons_of_mem _ h)
    obtain ⟨hid, hname, hsize, hmem, hused, hflat⟩ := ih lft (δ.reverse ++ used) hts'
    have hstep : fillTeams s (t :: ts) pool used
        = ({ t with members := t.members ++ δ } :: (fillTeams s ts lft (δ.reverse ++ used)).1,
           (fillTeams s ts lft (δ.reverse ++ used)).2.1,
           (fillTeams s ts lft (δ.reverse ++ used)).2.2) := by
      show (let r1 := fillLoop s pool t used
            let r2 := fillTeams s ts r1.2.1 r1.2.2
            (r1.1 :: r2.1, r2.2.1, r2.2.2)) = _
      rw [heq]
    rw [hstep, ht]
    simp only [List.map_cons, List.nil_append]
    refine ⟨by rw [hid], by rw [hname], ?_, ?_, ?_, ?_⟩
    · intro t' ht'
      rcases List.mem_cons.mp ht' with h | h
      · subst h
        have h2 := hlen (by simp [ht])
        simp [ht] at h2
        simpa using h2
      · exact hsize t' h
    · intro t' ht' x hx
      rcases List.mem_cons.mp ht' with h | h
      · subst h
        simp only [ht, List.nil_append] at hx
        exact hδ x hx
      · have h2 := hmem t' h x hx
        refine ⟨hlft x h2.1, fun hxu => h2.2 ?_⟩
        rw [List.mem_append]
        exact Or.inr hxu
    · intro x
      rw [hused x]
      simp only [List.mem_append, List.mem_reverse, List.mem_cons, ht, List.nil_append]
      constructor
      · rintro ((h | h) | ⟨t', ht', hx⟩)
        · exact Or.inr ⟨_, Or.inl rfl, h⟩
        · exact Or.inl h
        · exact Or.inr ⟨t', Or.inr ht', hx⟩
      · rintro (h | ⟨t', h | h, hx⟩)
        · exact Or.inl (Or.inr h)
        · subst h
          exact Or.inl (Or.inl hx)
        · exact Or.inr ⟨t', h, hx⟩
    · rw [List.flatten_cons]
      refine List.Nodup.append ?_ hflat ?_
      · simpa [ht] using hnd
      · intro x hx hx2
        rw [List.mem_flatten] at hx2
        obtain ⟨l, hl, hxl⟩ := hx2
        rw [List.mem_map] at hl
        obtain ⟨t', ht', rfl⟩ := hl
        refine (hmem t' ht' x hxl).2 ?_
        rw [List.mem_append, List.mem_reverse]
        exact Or.inl hx

/-- Total shape of `debate_randomize`: a non-underfill error leaves the
in-memory debate untouched, the underfill error leaves it with the
overwritten team dicts, and success installs the three computed lists. -/
theorem debateRandomize_shape (dbs : List Debate) (ms : List Member) (d : Debate)
    (r : PlannerRand) :
    (∃ e, debateRandomize dbs ms d r = (.error e, d) ∧
        ∀ nm g n, e ≠ .teamUnderfilled nm g n) ∨
    (∃ t, (drFill dbs ms d r).1.find? (fun t => t.members.length < d.format.team_size)
        = some t ∧
      debateRandomize dbs ms d r
        = (.error (.teamUnderfilled t.name t.members.length d.format.team_size),
           { d with
               teams := overwriteShared d.teams (drFill dbs ms d r).1 d.format.team_count })) ∨
    ((drFill dbs ms d r).1.find? (fun t => t.members.length < d.format.team_size) = none ∧
      debateRandomize dbs ms d r
        = (.ok ⟨drPickedJudges dbs ms d r, (drFill dbs ms d r).1, drReserves dbs ms d r⟩,
           { d with judges := drPickedJudges dbs ms d r,
                    teams := (drFill dbs ms d r).1,
                    reserves := drReserves dbs ms d r })) := by
  simp only [debateRandomize]
  split
  · exact Or.inl ⟨_, rfl, fun nm g n h => PlanError.noConfusion h⟩
  · split
    · exact Or.inl ⟨_, rfl, fun nm g n h => PlanError.noConfusion h⟩
    · split
      · exact Or.inl ⟨_, rfl, fun nm g n h => PlanError.noConfusion h⟩
      · split
        next t heq => exact Or.inr (Or.inl ⟨t, heq, rfl⟩)
        next heq => exact Or.inr (Or.inr ⟨heq, rfl⟩)

/-- C4 amended: on every error return the in-memory debate's judges,
reserves, scores, status and signups are unchanged, and on the three
insufficient-pool errors the whole debate is exactly as before the call;
only the TeamUnderfilled error leaves mutated team member lists (and no
error path writes the store: the handler calls save only on success). -/
theorem C4_error_leaves_debate (dbs : List Debate) (ms : List Member) (d : Debate)
    (r : PlannerRand) (e : PlanError)
    (h : (debateRandomize dbs ms d r).1 = .error e) :
    (debateRandomize dbs ms d r).2.judges = d.judges ∧
    (debateRandomize dbs ms d r).2.reserves = d.reserves ∧
    (debateRandomize dbs ms d r).2.scores = d.scores ∧
    (debateRandomize dbs ms d r).2.status = d.status ∧
    (debateRandomize dbs ms d r).2.signups = d.signups ∧
    ((∀ nm g n, e ≠ .teamUnderfilled nm g n) → (debateRandomize dbs ms d r).2 = d) := by
  rcases debateRandomize_shape dbs ms d r with ⟨e', he, hne⟩ | ⟨t, hf, he⟩ | ⟨hf, he⟩
  · rw [he]
    exact ⟨rfl, rfl, rfl, rfl, rfl, fun _ => rfl⟩
  · rw [he] at h ⊢
    refine ⟨rfl, rfl, rfl, rfl, rfl, ?_⟩
    intro hno
    exfalso
    have h2 : PlanError.teamUnderfilled t.name t.members.length d.format.team_size = e := by
      simpa using h
    exact hno _ _ _ h2.symm
  · rw [he] at h
    simp at h

def c4bDebate : Debate := { c4Debate with signups := [] }

/-- Witness for C4 amended: an insufficient-pool failure leaves the
in-memory debate exactly as it was. -/
theorem C4_error_leaves_debate_witness :
    (debateRandomize [c4bDebate] c4Members c4bDebate idRand).1
      = .error (.insufficientMembers 4 0) ∧
    (debateRandomize [c4bDebate] c4Members c4bDebate idRand).2 = c4bDebate :=
  ⟨by decide,
   (C4_error_leaves_debate [c4bDebate] c4Members c4bDebate idRand
      (.insufficientMembers 4 0) (by decide)).2.2.2.2.2
     (fun nm g n h => PlanError.noConfusion h)⟩

/-- `all_available` of line 1106: the eligible signups by choice class. -/
def eligibleSignups (ms : List Member) (d : Debate) : List String :=
  drJudgesOnly ms d ++ drAdvocatesOnly ms d ++ drAnyRole ms d

theorem drJudgesPool_nodup (dbs : List Debate) (ms : List Member) (d : Debate)
    (r : PlannerRand) (hJ : ∀ l, (r.shufJ l).Perm l) :
    (drJudgesPool dbs ms d r).Nodup := by
  unfold drJudgesPool
  exact (hJ _).symm.nodup ((sortByCount_perm _ _ _).symm.nodup (pyDedup_nodup _))

theorem mem_drJudgesPool (dbs : List Debate) (ms : List Member) (d : Debate)
    (r : PlannerRand) (hJ : ∀ l, (r.shufJ l).Perm l) (e : String) :
    e ∈ drJudgesPool dbs ms d r ↔ e ∈ drJudgesOnly ms d ∨ e ∈ drAnyRole ms d := by
  unfold drJudgesPool
  rw [(hJ _).mem_iff, (sortByCount_perm _ _ _).mem_iff, mem_pyDedup, List.mem_append]

theorem mem_drAdvocatesPool (dbs : List Debate) (ms : List Member) (d : Debate)
    (r : PlannerRand) (hA : ∀ l, (r.shufA l).Perm l) (e : String) :
    e ∈ drAdvocatesPool dbs ms d r ↔ e ∈ drAdvocatesOnly ms d ∨ e ∈ drAnyRole ms d := by
  unfold drAdvocatesPool
  rw [(hA _).mem_iff, (sortByCount_perm _ _ _).mem_iff, mem_pyDedup, List.mem_append]

theorem mem_drRemainingAdvocates (dbs : List Debate) (ms : List Member) (d : Debate)
    (r : PlannerRand) (e : String) :
    e ∈ drRemainingAdvocates dbs ms d r ↔
      e ∈ drAdvocatesPool dbs ms d r ∧ e ∉ drPickedJudges dbs ms d r := by
  unfold drRemainingAdvocates
  rw [List.mem_filter]
  simp

theorem mem_drAllRemaining (dbs : List Debate) (ms : List Member) (d : Debate)
    (r : PlannerRand)
    (hC : ∀ l, (r.shufCCr l).Perm l) (hW : ∀ l, (r.shufWSr l).Perm l)
    (hO : ∀ l, (r.shufOTr l).Perm l) (hAll : ∀ l, (r.shufAll l).Perm l) :
    ∀ e ∈ drAllRemaining dbs ms d r, e ∈ drRemainingAdvocates dbs ms d r := by
  intro e he
  simp only [drAllRemaining] at he
  rw [(hAll _).mem_iff] at he
  rcases List.mem_append.mp he with h | h
  · rcases List.mem_append.mp h with h | h
    · exact List.mem_of_mem_filter ((hC _).mem_iff.mp h)
    · exact List.mem_of_mem_filter ((hW _).mem_iff.mp h)
  · exact List.mem_of_mem_filter ((hO _).mem_iff.mp h)

theorem drTeams0_members (d : Debate) : ∀ t ∈ drTeams0 d, t.members = [] := by
  intro t ht
  unfold drTeams0 at ht
  obtain ⟨t0, _, rfl⟩ := List.mem_map.mp ht
  rfl

theorem mem_drReserves (dbs : List Debate) (ms : List Member) (d : Debate)
    (r : PlannerRand) (hR : ∀ l, (r.shufRes l).Perm l) (e : String) :
    e ∈ drReserves dbs ms d r ↔
      e ∈ eligibleSignups ms d ∧
      ¬ (e ∈ drPickedJudges dbs ms d r ∨ e ∈ (drFill dbs ms d r).2.2) := by
  simp only [drReserves, eligibleSignups]
  rw [(hR _).mem_iff, List.mem_filter]
  simp

/-- C2 amended: on every successful run (over any randomness draw that is
a permutation at each shuffle site), every returned team has exactly
`team_size` members, the judges are distinct and number at most
`judge_count` (not always exactly: the studio-balancing remainder can
drop below the quota), the team member lists are disjoint and
duplicate-free, the three output sets (judges, team members, reserves)
are pairwise disjoint, and their union is exactly the set of eligible
signups. -/
theorem C2_planner_partition (dbs : List Debate) (ms : List Member) (d : Debate)
    (r : PlannerRand) (hr : r.Valid) (res : PlanResult)
    (h : (debateRandomize dbs ms d r).1 = .ok res) :
    (∀ t ∈ res.teams, t.members.length = d.format.team_size) ∧
    res.judges.Nodup ∧
    res.judges.length ≤ d.format.judge_count ∧
    (res.teams.map Team.members).flatten.Nodup ∧
    (∀ e ∈ res.judges, ∀ t ∈ res.teams, e ∉ t.members) ∧
    (∀ e ∈ res.judges, e ∉ res.reserves) ∧
    (∀ t ∈ res.teams, ∀ x ∈ t.members, x ∉ res.reserves) ∧
    (∀ e, (e ∈ res.judges ∨ (∃ t ∈ res.teams, e ∈ t.members) ∨ e ∈ res.reserves)
        ↔ e ∈ eligibleSignups ms d) := by
  rcases debateRandomize_shape dbs ms d r with ⟨e', he, _⟩ | ⟨t, hf, he⟩ | ⟨hf, he⟩
  · rw [he] at h
    simp at h
  · rw [he] at h
    simp at h
  rw [he] at h
  have hres : res
      = ⟨drPickedJudges dbs ms d r, (drFill dbs ms d r).1, drReserves dbs ms d r⟩ := by
    simpa using h.symm
  subst hres
  obtain ⟨hid, hname, hsize, hmemsrc, husediff, hflat⟩ :=
    fillTeams_spec d.format.team_size (drTeams0 d) (drAllRemaining dbs ms d r) []
      (drTeams0_members d)
  refine ⟨?_, ?_, ?_, ?_, ?_, ?_, ?_, ?_⟩
  · -- exact team sizes
    intro t ht
    have hle : t.members.length ≤ d.format.team_size := hsize t ht
    have h2 := List.find?_eq_none.mp hf t ht
    simp at h2
    omega
  · exact pickJudges_nodup ms _ _ _ r (drJudgesPool_nodup dbs ms d r hr.shufJ)
      hr.shufCCj hr.shufWSj hr.shufOTj
  · exact pickJudges_length ms _ _ _ r
  · exact hflat
  · intro e hej t ht hem
    have h1 := (hmemsrc t ht e hem).1
    have h2 := mem_drAllRemaining dbs ms d r hr.shufCCr hr.shufWSr hr.shufOTr
      hr.shufAll e h1
    exact ((mem_drRemainingAdvocates dbs ms d r e).mp h2).2 hej
  · intro e hej hres
    exact ((mem_drReserves dbs ms d r hr.shufRes e).mp hres).2 (Or.inl hej)
  · intro t ht x hx hres
    have hu : x ∈ (drFill dbs ms d r).2.2 := (husediff x).mpr (Or.inr ⟨t, ht, hx⟩)
    exact ((mem_drReserves dbs ms d r hr.shufRes x).mp hres).2 (Or.inr hu)
  · intro e
    constructor
    · rintro (h1 | ⟨t, ht, hx⟩ | h1)
      · have h2 := pickJudges_subset ms _ _ _ r hr.shufCCj hr.shufWSj hr.shufOTj e h1
        rcases (mem_drJudgesPool dbs ms d r hr.shufJ e).mp h2 with h3 | h3
        · exact List.mem_append.mpr (Or.inl (List.mem_append.mpr (Or.inl h3)))
        · exact List.mem_append.mpr (Or.inr h3)
      · have h1 := (hmemsrc t ht e hx).1
        have h2 := mem_drAllRemaining dbs ms d r hr.shufCCr hr.shufWSr hr.shufOTr
          hr.shufAll e h1
        have h3 := ((mem_drRemainingAdvocates dbs ms d r e).mp h2).1
        rcases (mem_drAdvocatesPool dbs ms d r hr.shufA e).mp h3 with h4 | h4
        · exact List.mem_append.mpr (Or.inl (List.mem_append.mpr (Or.inr h4)))
        · exact List.mem_append.mpr (Or.inr h4)
      · exact ((mem_drReserves dbs ms d r hr.shufRes e).mp h1).1
    · intro hel
      by_cases hj : e ∈ drPickedJudges dbs ms d r
      · exact Or.inl hj
      by_cases hu : e ∈ (drFill dbs ms d r).2.2
      · rcases (husediff e).mp hu with h0 | ⟨t, ht, hx⟩
        · exact absurd h0 (List.not_mem_nil e)
        · exact Or.inr (Or.inl ⟨t, ht, hx⟩)
      · refine Or.inr (Or.inr ((mem_drReserves dbs ms d r hr.shufRes e).mpr
          ⟨hel, ?_⟩))
        rintro (h0 | h0)
        · exact hj h0
        · exact hu h0

def c2Res : PlanResult :=
  ⟨["a1@x"], [⟨"t1", "Team 1", ["a4@x"]⟩], ["a2@x", "a3@x"]⟩

/-- Witness for C2 amended at the concrete successful run. -/
theorem C2_planner_partition_witness :
    (∀ t ∈ c2Res.teams, t.members.length = c2Debate.format.team_size) ∧
    c2Res.judges.Nodup ∧
    c2Res.judges.length ≤ c2Debate.format.judge_count ∧
    (c2Res.teams.map Team.members).flatten.Nodup ∧
    (∀ e ∈ c2Res.judges, ∀ t ∈ c2Res.teams, e ∉ t.members) ∧
    (∀ e ∈ c2Res.judges, e ∉ c2Res.reserves) ∧
    (∀ t ∈ c2Res.teams, ∀ x ∈ t.members, x ∉ c2Res.reserves) ∧
    (∀ e, (e ∈ c2Res.judges ∨ (∃ t ∈ c2Res.teams, e ∈ t.members) ∨ e ∈ c2Res.reserves)
        ↔ e ∈ eligibleSignups c2Members c2Debate) :=
  C2_planner_partition [c2Debate] c2Members c2Debate idRand idRand_valid c2Res (by decide)

end QaLeadership
